import Mathlib

/-!
Verification of the training driver in `src/train.py` (PyTorchUtils).

The Python source is shallowly embedded: numpy/torch arrays become a flat
list of rationals together with a shape, samples become association lists
from field names to arrays, the sample source becomes an infinite stream
of samples together with an explicit cursor, and the effectful training
loop becomes a state-passing function that records an event trace.
Components that live in the (absent) `train_utils` module — `SampleSpec`,
`LearningMonitor`, `masks_not_empty`, `make_variable` — are modelled from
the specification document and marked as such in their doc comments.
-/

/-- A numpy/torch array: a shape and the flat data, with integer-embedded
scalar entries. -/
structure Arr where
  shape : List ℕ
  data : List ℤ
deriving DecidableEq, Repr

/-- `np.expand_dims(v, axis=0)`: a new leading dimension of size 1. -/
def Arr.expandDims (a : Arr) : Arr :=
  { shape := 1 :: a.shape, data := a.data }

/-- Total element count of an array, `np.prod(label.size())`. -/
def Arr.size (a : Arr) : ℕ :=
  a.shape.prod

/-- `tensor.sum()`: the sum of all entries. -/
def Arr.sum (a : Arr) : ℤ :=
  (a.data).sum

/-- A sample: a Python dict from field names to arrays, kept as an
association list in insertion order (Python dicts preserve it). -/
def Sample := List (String × Arr)

instance : DecidableEq Sample := by
  unfold Sample
  infer_instance

/-- Dict access `sample[k]`, fallible like Python subscription. -/
def Sample.get (s : Sample) (k : String) : Option Arr :=
  List.lookup k s

/-- `sample.keys()`. -/
def Sample.keys (s : Sample) : List String :=
  s.map Prod.fst

/-- The `for k, v in sample.iteritems(): sample[k] = np.expand_dims(v, 0)`
loop at the end of `fetch_nonempty_sample`. -/
def Sample.expandAll (s : Sample) : Sample :=
  s.map (fun p => (p.1, p.2.expandDims))

/-- Modelled from the spec: `train_utils.masks_not_empty(sample, masks)`,
absent from `src/`.  Per §4.2 the fetcher repeats "until, for every mask in
`mask_names`, the mask contains at least one non-zero element", and the
caller retries while this function returns true; so it returns true exactly
when a retry is still needed, i.e. some named mask has no non-zero element
(a missing mask field also has none). -/
def masks_not_empty (sample : Sample) (masks : List String) : Bool :=
  masks.any (fun m =>
    match sample.get m with
    | some a => a.data.all (fun x => x == 0)
    | none => true)

/-- The retry loop of `fetch_nonempty_sample`: the sampler is a stream of
samples and `k` the cursor of the next `sampler.get()`; returns the index of
the first sample (at or after `k`) whose named masks are all non-empty.
`fuel` bounds the retries: the Python loop is unbounded, and exhausting the
fuel models its divergence. -/
def fetchIdx (stream : ℕ → Sample) (masks : List String) :
    ℕ → ℕ → Option ℕ
  | k, 0 =>
    if masks_not_empty (stream k) masks then none else some k
  | k, fuel + 1 =>
    if masks_not_empty (stream k) masks then
      fetchIdx stream masks (k + 1) fuel
    else some k

/-- `fetch_nonempty_sample(sampler, masks)`: pulls samples until no named
mask is empty, then adds the unit batch dimension to every field.  Returns
the batched sample together with the advanced sampler cursor. -/
def fetch_nonempty_sample (stream : ℕ → Sample) (masks : List String)
    (k fuel : ℕ) : Option (Sample × ℕ) :=
  (fetchIdx stream masks k fuel).map
    (fun j => ((stream j).expandAll, j + 1))

/-- Number of `sampler.get()` calls a successful fetch performed. -/
def fetchGets (k j : ℕ) : ℕ :=
  j + 1 - k

theorem fetchIdx_not_empty (stream : ℕ → Sample) (masks : List String) :
    ∀ fuel k j, fetchIdx stream masks k fuel = some j →
      masks_not_empty (stream j) masks = false := by
  intro fuel
  induction fuel with
  | zero =>
    intro k j h
    unfold fetchIdx at h
    by_cases hc : masks_not_empty (stream k) masks
    · simp [hc] at h
    · simp [hc] at h
      rw [← h]
      simpa using hc
  | succ n ih =>
    intro k j h
    unfold fetchIdx at h
    by_cases hc : masks_not_empty (stream k) masks
    · simp [hc] at h
      exact ih (k + 1) j h
    · simp [hc] at h
      rw [← h]
      simpa using hc

theorem expandAll_get (s : Sample) (m : String) :
    (s.expandAll).get m = (s.get m).map Arr.expandDims := by
  induction s with
  | nil => rfl
  | cons p t ih =>
    by_cases h : p.1 = m
    · simp [Sample.expandAll, Sample.get, List.lookup, h]
    · simp only [Sample.expandAll, Sample.get, List.lookup] at ih ⊢
      have h1 : (m == p.1) = false := by
        simp [BEq.beq]
        exact fun hh => h hh.symm
      simp [h1, ih]

/-- Claim C1: every sample returned by `fetch_nonempty_sample` has, for each
mask named in `mask_names`, at least one non-zero element; the function kept
requesting samples from the sampler until this held. -/
theorem C1_fetch_nonempty_sample_masks_nonzero
    (stream : ℕ → Sample) (mask_names : List String) (k fuel : ℕ)
    (s : Sample) (c : ℕ)
    (h : fetch_nonempty_sample stream mask_names k fuel = some (s, c)) :
    ∀ m ∈ mask_names, ∃ a, s.get m = some a ∧ ∃ x ∈ a.data, x ≠ 0 := by
  intro m hm
  unfold fetch_nonempty_sample at h
  cases hidx : fetchIdx stream mask_names k fuel with
  | none => rw [hidx] at h; simp at h
  | some j =>
    rw [hidx] at h
    simp at h
    have hne := fetchIdx_not_empty stream mask_names fuel k j hidx
    unfold masks_not_empty at hne
    rw [List.any_eq_false] at hne
    have hm2 := hne m hm
    cases hg : (stream j).get m with
    | none => rw [hg] at hm2; simp at hm2
    | some a =>
      rw [hg] at hm2
      simp only [List.all_eq_true] at hm2
      push_neg at hm2
      obtain ⟨x, hx, hxne⟩ := hm2
      refine ⟨a.expandDims, ?_, ?_⟩
      · rw [← h.1, expandAll_get, hg]
        rfl
      · refine ⟨x, hx, ?_⟩
        intro hx0
        exact hxne (by simp [hx0])

/-- A concrete two-phase sampler: the first sample has an all-zero mask,
every later sample has a non-zero mask entry. -/
def c1Stream : ℕ → Sample := fun k =>
  if k = 0 then
    [("affinity", ⟨[2], [1, 2]⟩), ("affinity_mask", ⟨[2], [0, 0]⟩)]
  else
    [("affinity", ⟨[2], [3, 4]⟩), ("affinity_mask", ⟨[2], [0, 1]⟩)]

/-- Witness for C1 at a concrete sampler: the first sample is rejected,
the second is accepted and its mask has a non-zero element. -/
theorem C1_witness :
    fetch_nonempty_sample c1Stream ["affinity_mask"] 0 5 =
      some ([("affinity", ⟨[1, 2], [3, 4]⟩),
             ("affinity_mask", ⟨[1, 2], [0, 1]⟩)], 2) ∧
    ∀ m ∈ ["affinity_mask"],
      ∃ a, Sample.get [("affinity", (⟨[1, 2], [3, 4]⟩ : Arr)),
             ("affinity_mask", ⟨[1, 2], [0, 1]⟩)] m = some a ∧
        ∃ x ∈ a.data, x ≠ 0 := by
  refine ⟨by decide, ?_⟩
  exact C1_fetch_nonempty_sample_masks_nonzero c1Stream ["affinity_mask"]
    0 5 _ 2 (by decide)

/-- A Python dict with string keys, as an association list in insertion
order. -/
def Dict (α : Type) := List (String × α)

instance (α : Type) [DecidableEq α] : DecidableEq (Dict α) := by
  unfold Dict
  infer_instance

/-- The empty dict. -/
def Dict.empty (α : Type) : Dict α := []

/-- `d[k]`, as an option. -/
def Dict.lookup {α : Type} (d : Dict α) (k : String) : Option α :=
  List.lookup k d

/-- `d.keys()`, in insertion order. -/
def Dict.keys {α : Type} (d : Dict α) : List String :=
  d.map Prod.fst

/-- `d.values()`, in insertion order. -/
def Dict.values {α : Type} (d : Dict α) : List α :=
  d.map Prod.snd

/-- `d[k] = v`: overwrite the first binding in place when the key exists,
append otherwise (Python dicts keep the original position of an updated
key). -/
def Dict.insert {α : Type} : Dict α → String → α → Dict α
  | [], k, v => [(k, v)]
  | p :: t, k, v =>
    if p.1 = k then (k, v) :: t else p :: Dict.insert t k v

theorem Dict.lookup_insert_self {α : Type} (d : Dict α) (k : String)
    (v : α) : (d.insert k v).lookup k = some v := by
  induction d with
  | nil => simp [Dict.insert, Dict.lookup, List.lookup]
  | cons p t ih =>
    by_cases hp : p.1 = k
    · simp [Dict.insert, hp, Dict.lookup, List.lookup]
    · have h1 : (k == p.1) = false := by
        simp [BEq.beq]
        exact fun hh => hp hh.symm
      simp only [Dict.insert, hp, if_false, Dict.lookup, List.lookup, h1]
      exact ih

theorem Dict.lookup_insert_ne {α : Type} (d : Dict α) (k k2 : String)
    (v : α) (hne : k ≠ k2) :
    (d.insert k v).lookup k2 = d.lookup k2 := by
  have h2 : (k2 == k) = false := by
    simp [BEq.beq]
    exact fun hh => hne hh.symm
  induction d with
  | nil => simp [Dict.insert, Dict.lookup, List.lookup, h2]
  | cons p t ih =>
    by_cases hp : p.1 = k
    · have h3 : (k2 == p.1) = false := by rw [hp]; exact h2
      simp [Dict.insert, hp, Dict.lookup, List.lookup, h2, h3]
    · simp only [Dict.insert, hp, if_false, Dict.lookup, List.lookup]
      by_cases hq : p.1 = k2
      · have h3 : (k2 == p.1) = true := by simp [BEq.beq, hq]
        simp [h3]
      · have h3 : (k2 == p.1) = false := by
          simp [BEq.beq]
          exact fun hh => hq hh.symm
        simp only [h3]
        exact ih

theorem Dict.keys_insert {α : Type} (d : Dict α) (k : String) (v : α) :
    (d.insert k v).keys.toFinset = Insert.insert k d.keys.toFinset := by
  induction d with
  | nil => simp [Dict.insert, Dict.keys]
  | cons p t ih =>
    by_cases hp : p.1 = k
    · simp [Dict.insert, hp, Dict.keys]
    · simp only [Dict.insert, hp, if_false, Dict.keys, List.map_cons,
        List.toFinset_cons]
      simp only [Dict.keys] at ih
      rw [ih]
      exact Finset.Insert.comm p.1 k (List.map Prod.fst t).toFinset

/-- Modelled from the spec: `train_utils.SampleSpec`, absent from `src/`.
Ordered input, label and mask names, plus the mapping from a label name to
the position of its mask among the mask names (§3, §4.1). -/
structure SampleSpec where
  inputs : List String
  labels : List String
  masks : List String
  maskIdx : String → Option ℕ

/-- `sample_spec.get_inputs()`. -/
def SampleSpec.get_inputs (s : SampleSpec) : List String := s.inputs

/-- `sample_spec.get_labels()`. -/
def SampleSpec.get_labels (s : SampleSpec) : List String := s.labels

/-- `sample_spec.get_masks()`. -/
def SampleSpec.get_masks (s : SampleSpec) : List String := s.masks

/-- `sample_spec.has_mask(label)`. -/
def SampleSpec.has_mask (s : SampleSpec) (l : String) : Bool :=
  (s.maskIdx l).isSome

/-- `sample_spec.get_mask_index(label)`, as an option. -/
def SampleSpec.get_mask_index (s : SampleSpec) (l : String) : Option ℕ :=
  s.maskIdx l

/-- Modelled from the spec: construction of a `SampleSpec` from one
sample's field names (§4.1): a label name `X` is paired with a mask named
`X_mask`; every mask is such a name; remaining names are inputs. -/
def mkSampleSpec (names : List String) : SampleSpec :=
  let labels := names.filter (fun n => names.contains (n ++ "_mask"))
  let masks := names.filter
    (fun n => labels.any (fun l => n = l ++ "_mask"))
  { inputs := names.filter
      (fun n => !(labels.contains n) && !(masks.contains n))
    labels := labels
    masks := masks
    maskIdx := fun l =>
      if masks.contains (l ++ "_mask") then
        some (masks.indexOf (l ++ "_mask"))
      else none }

/-- The externally supplied loss function: callable with or without a mask
argument, returning a scalar loss. -/
structure LossFn where
  plain : Arr → Arr → ℤ
  masked : Arr → Arr → Arr → ℤ

/-- Run-time failures of the embedded Python code. -/
inductive PyErr where
  | assertionError
  | indexError
  | nameError
  | keyError
  | diverged
deriving DecidableEq, Repr

/-- The `for (i, pred) in enumerate(preds)` loop body of `eval_error`:
builds the `losses` and `nmsks` dicts; list subscription out of range is an
index error, exactly as in Python. -/
def evalLoop (labels masks : List Arr) (names : List String) (f : LossFn)
    (spec : SampleSpec) :
    ℕ → List Arr → Dict ℤ → Dict ℤ → Except PyErr (Dict ℤ × Dict ℤ)
  | _, [], losses, nmsks => .ok (losses, nmsks)
  | i, pred :: rest, losses, nmsks =>
    match labels[i]?, names[i]? with
    | some label, some name =>
      match spec.get_mask_index name with
      | some mi =>
        match masks[mi]? with
        | some mask =>
          evalLoop labels masks names f spec (i + 1) rest
            (losses.insert name (f.masked pred label mask))
            (nmsks.insert name mask.sum)
        | none => .error .indexError
      | none =>
        evalLoop labels masks names f spec (i + 1) rest
          (losses.insert name (f.plain pred label))
          (nmsks.insert name ((label.size : ℤ)))
    | _, _ => .error .indexError

/-- `eval_error(preds, labels, masks, loss_fn, sample_spec)`: the two
cardinality assertions, then the per-prediction loop. -/
def eval_error (preds labels masks : List Arr) (loss_fn : LossFn)
    (sample_spec : SampleSpec) : Except PyErr (Dict ℤ × Dict ℤ) :=
  let label_names := sample_spec.get_labels
  if label_names.length ≠ labels.length then .error .assertionError
  else if preds.length ≠ labels.length then .error .assertionError
  else evalLoop labels masks label_names loss_fn sample_spec 0 preds [] []

/-- The empty array, used as the default of list subscriptions in spec
formulas. -/
def arr0 : Arr := ⟨[], []⟩

theorem getD_lt {α : Type _} (l : List α) (d : α) (n : ℕ)
    (h : n < l.length) : l.getD n d = l.get ⟨n, h⟩ := by
  rw [List.getD_eq_getElem?_getD, List.getElem?_eq_getElem h]
  rfl

/-- The loss `eval_error` stores for label position `j`: the masked or the
plain call of `loss_fn`, depending on whether the label has a mask. -/
def evalLossAt (preds labels masks : List Arr) (names : List String)
    (f : LossFn) (spec : SampleSpec) (j : ℕ) : ℤ :=
  match spec.get_mask_index (names.getD j "") with
  | some mi =>
    f.masked (preds.getD j arr0) (labels.getD j arr0) (masks.getD mi arr0)
  | none => f.plain (preds.getD j arr0) (labels.getD j arr0)

/-- The normalization count `eval_error` stores for label position `j`:
the mask sum for a masked label, the label element count otherwise. -/
def evalCountAt (labels masks : List Arr) (names : List String)
    (spec : SampleSpec) (j : ℕ) : ℤ :=
  match spec.get_mask_index (names.getD j "") with
  | some mi => (masks.getD mi arr0).sum
  | none => (((labels.getD j arr0).size : ℤ))

theorem evalLossAt_masked (preds labels masks : List Arr)
    (names : List String) (f : LossFn) (spec : SampleSpec) (j mi : ℕ)
    (hmi : spec.get_mask_index (names.getD j "") = some mi) :
    evalLossAt preds labels masks names f spec j =
      f.masked (preds.getD j arr0) (labels.getD j arr0)
        (masks.getD mi arr0) := by
  unfold evalLossAt
  rw [hmi]

theorem evalLossAt_plain (preds labels masks : List Arr)
    (names : List String) (f : LossFn) (spec : SampleSpec) (j : ℕ)
    (hmi : spec.get_mask_index (names.getD j "") = none) :
    evalLossAt preds labels masks names f spec j =
      f.plain (preds.getD j arr0) (labels.getD j arr0) := by
  unfold evalLossAt
  rw [hmi]

theorem evalCountAt_masked (labels masks : List Arr)
    (names : List String) (spec : SampleSpec) (j mi : ℕ)
    (hmi : spec.get_mask_index (names.getD j "") = some mi) :
    evalCountAt labels masks names spec j = (masks.getD mi arr0).sum := by
  unfold evalCountAt
  rw [hmi]

theorem evalCountAt_plain (labels masks : List Arr)
    (names : List String) (spec : SampleSpec) (j : ℕ)
    (hmi : spec.get_mask_index (names.getD j "") = none) :
    evalCountAt labels masks names spec j =
      (((labels.getD j arr0).size : ℤ)) := by
  unfold evalCountAt
  rw [hmi]

theorem evalLoop_ok (preds labels masks : List Arr) (names : List String)
    (f : LossFn) (spec : SampleSpec)
    (hlen1 : preds.length = labels.length)
    (hlen2 : labels.length = names.length)
    (hnd : names.Nodup) :
    ∀ (rest : List Arr) (i : ℕ) (losses nmsks : Dict ℤ),
      rest = preds.drop i →
      (∀ j, i ≤ j → j < names.length → ∀ mi,
        spec.get_mask_index (names.getD j "") = some mi →
          mi < masks.length) →
      ∃ L N,
        evalLoop labels masks names f spec i rest losses nmsks =
            .ok (L, N) ∧
          L.keys.toFinset =
            losses.keys.toFinset ∪ (names.drop i).toFinset ∧
          N.keys.toFinset =
            nmsks.keys.toFinset ∪ (names.drop i).toFinset ∧
          (∀ k2, k2 ∉ names.drop i →
            L.lookup k2 = losses.lookup k2 ∧
            N.lookup k2 = nmsks.lookup k2) ∧
          (∀ j, i ≤ j → j < names.length →
            L.lookup (names.getD j "") =
              some (evalLossAt preds labels masks names f spec j) ∧
            N.lookup (names.getD j "") =
              some (evalCountAt labels masks names spec j)) := by
  intro rest
  induction rest with
  | nil =>
    intro i losses nmsks hrest hmask
    have hip : preds.length ≤ i := List.drop_eq_nil_iff.mp hrest.symm
    have hin : names.length ≤ i := by omega
    have hdrop : names.drop i = [] := List.drop_eq_nil_iff.mpr hin
    refine ⟨losses, nmsks, rfl, ?_, ?_, ?_, ?_⟩
    · simp [hdrop]
    · simp [hdrop]
    · intro k2 _
      exact ⟨rfl, rfl⟩
    · intro j hij hjn
      omega
  | cons pred rest2 ih =>
    intro i losses nmsks hrest hmask
    have hip : i < preds.length := by
      by_contra hc
      push_neg at hc
      rw [List.drop_eq_nil_iff.mpr hc] at hrest
      simp at hrest
    have hil : i < labels.length := by omega
    have hin : i < names.length := by omega
    rw [List.drop_eq_getElem_cons hip] at hrest
    simp only [List.cons.injEq] at hrest
    obtain ⟨hpred, hrest2⟩ := hrest
    have hglab : labels[i]? = some (labels.get ⟨i, hil⟩) :=
      List.getElem?_eq_getElem hil
    have hgnam : names[i]? = some (names.get ⟨i, hin⟩) :=
      List.getElem?_eq_getElem hin
    have hgdn : names.getD i "" = names.get ⟨i, hin⟩ := getD_lt names "" i hin
    have hdn : names.drop i = names.get ⟨i, hin⟩ :: names.drop (i + 1) :=
      List.drop_eq_getElem_cons hin
    have hnotin : names.get ⟨i, hin⟩ ∉ names.drop (i + 1) := by
      have hnd2 : (names.drop i).Nodup :=
        hnd.sublist (List.drop_sublist i names)
      rw [hdn] at hnd2
      exact (List.nodup_cons.mp hnd2).1
    cases hmi : spec.get_mask_index (names.get ⟨i, hin⟩) with
    | some mi =>
      have hmlt : mi < masks.length := by
        apply hmask i (le_refl i) hin mi
        rw [hgdn]
        exact hmi
      have hgmask : masks[mi]? = some (masks.get ⟨mi, hmlt⟩) :=
        List.getElem?_eq_getElem hmlt
      obtain ⟨L, N, heval, hLkeys, hNkeys, hframe, hvals⟩ :=
        ih (i + 1)
          (losses.insert (names.get ⟨i, hin⟩)
            (f.masked pred (labels.get ⟨i, hil⟩) (masks.get ⟨mi, hmlt⟩)))
          (nmsks.insert (names.get ⟨i, hin⟩) (masks.get ⟨mi, hmlt⟩).sum)
          hrest2
          (fun j hj hjn mi2 hmi2 => hmask j (by omega) hjn mi2 hmi2)
      refine ⟨L, N, ?_, ?_, ?_, ?_, ?_⟩
      · simp only [evalLoop, hglab, hgnam, hmi, hgmask]
        exact heval
      · rw [hLkeys, Dict.keys_insert, hdn, List.toFinset_cons,
          Finset.insert_union, Finset.union_insert]
      · rw [hNkeys, Dict.keys_insert, hdn, List.toFinset_cons,
          Finset.insert_union, Finset.union_insert]
      · intro k2 hk2
        rw [hdn] at hk2
        simp only [List.mem_cons, not_or] at hk2
        obtain ⟨hk2ne, hk2nd⟩ := hk2
        obtain ⟨hfL, hfN⟩ := hframe k2 hk2nd
        constructor
        · rw [hfL, Dict.lookup_insert_ne _ _ _ _ (fun h => hk2ne h.symm)]
        · rw [hfN, Dict.lookup_insert_ne _ _ _ _ (fun h => hk2ne h.symm)]
      · intro j hij hjn
        by_cases hji : j = i
        · subst hji
          obtain ⟨hfL, hfN⟩ := hframe (names.get ⟨j, hin⟩) hnotin
          have hgdp : preds.getD j arr0 = pred := by
            rw [getD_lt preds arr0 j hip, hpred]
            rfl
          have hgdl : labels.getD j arr0 = labels.get ⟨j, hil⟩ :=
            getD_lt labels arr0 j hil
          have hgdm : masks.getD mi arr0 = masks.get ⟨mi, hmlt⟩ :=
            getD_lt masks arr0 mi hmlt
          have hmiD : spec.get_mask_index (names.getD j "") = some mi := by
            rw [hgdn]
            exact hmi
          constructor
          · rw [hgdn, hfL, Dict.lookup_insert_self,
              evalLossAt_masked preds labels masks names f spec j mi hmiD,
              hgdp, hgdl, hgdm]
          · rw [hgdn, hfN, Dict.lookup_insert_self,
              evalCountAt_masked labels masks names spec j mi hmiD, hgdm]
        · exact hvals j (by omega) hjn
    | none =>
      obtain ⟨L, N, heval, hLkeys, hNkeys, hframe, hvals⟩ :=
        ih (i + 1)
          (losses.insert (names.get ⟨i, hin⟩)
            (f.plain pred (labels.get ⟨i, hil⟩)))
          (nmsks.insert (names.get ⟨i, hin⟩)
            (((labels.get ⟨i, hil⟩).size : ℤ)))
          hrest2
          (fun j hj hjn mi2 hmi2 => hmask j (by omega) hjn mi2 hmi2)
      refine ⟨L, N, ?_, ?_, ?_, ?_, ?_⟩
      · simp only [evalLoop, hglab, hgnam, hmi]
        exact heval
      · rw [hLkeys, Dict.keys_insert, hdn, List.toFinset_cons,
          Finset.insert_union, Finset.union_insert]
      · rw [hNkeys, Dict.keys_insert, hdn, List.toFinset_cons,
          Finset.insert_union, Finset.union_insert]
      · intro k2 hk2
        rw [hdn] at hk2
        simp only [List.mem_cons, not_or] at hk2
        obtain ⟨hk2ne, hk2nd⟩ := hk2
        obtain ⟨hfL, hfN⟩ := hframe k2 hk2nd
        constructor
        · rw [hfL, Dict.lookup_insert_ne _ _ _ _ (fun h => hk2ne h.symm)]
        · rw [hfN, Dict.lookup_insert_ne _ _ _ _ (fun h => hk2ne h.symm)]
      · intro j hij hjn
        by_cases hji : j = i
        · subst hji
          obtain ⟨hfL, hfN⟩ := hframe (names.get ⟨j, hin⟩) hnotin
          have hgdp : preds.getD j arr0 = pred := by
            rw [getD_lt preds arr0 j hip, hpred]
            rfl
          have hgdl : labels.getD j arr0 = labels.get ⟨j, hil⟩ :=
            getD_lt labels arr0 j hil
          have hmiD : spec.get_mask_index (names.getD j "") = none := by
            rw [hgdn]
            exact hmi
          constructor
          · rw [hgdn, hfL, Dict.lookup_insert_self,
              evalLossAt_plain preds labels masks names f spec j hmiD,
              hgdp, hgdl]
          · rw [hgdn, hfN, Dict.lookup_insert_self,
              evalCountAt_plain labels masks names spec j hmiD, hgdl]
        · exact hvals j (by omega) hjn

theorem evalLoop_isOk (labels masks : List Arr) (names : List String)
    (f : LossFn) (spec : SampleSpec) :
    ∀ (rest : List Arr) (i : ℕ) (losses nmsks : Dict ℤ),
      i + rest.length ≤ labels.length →
      i + rest.length ≤ names.length →
      (∀ j, i ≤ j → j < names.length → ∀ mi,
        spec.get_mask_index (names.getD j "") = some mi →
          mi < masks.length) →
      ∃ L N,
        evalLoop labels masks names f spec i rest losses nmsks =
          .ok (L, N) := by
  intro rest
  induction rest with
  | nil =>
    intro i losses nmsks _ _ _
    exact ⟨losses, nmsks, rfl⟩
  | cons pred rest2 ih =>
    intro i losses nmsks hl hn hmask
    simp only [List.length_cons] at hl hn
    have hil : i < labels.length := by omega
    have hin : i < names.length := by omega
    have hglab : labels[i]? = some (labels.get ⟨i, hil⟩) :=
      List.getElem?_eq_getElem hil
    have hgnam : names[i]? = some (names.get ⟨i, hin⟩) :=
      List.getElem?_eq_getElem hin
    have hgdn : names.getD i "" = names.get ⟨i, hin⟩ := getD_lt names "" i hin
    cases hmi : spec.get_mask_index (names.get ⟨i, hin⟩) with
    | some mi =>
      have hmlt : mi < masks.length := by
        apply hmask i (le_refl i) hin mi
        rw [hgdn]
        exact hmi
      have hgmask : masks[mi]? = some (masks.get ⟨mi, hmlt⟩) :=
        List.getElem?_eq_getElem hmlt
      obtain ⟨L, N, h⟩ := ih (i + 1) (losses.insert (names.get ⟨i, hin⟩)
          (f.masked pred (labels.get ⟨i, hil⟩) (masks.get ⟨mi, hmlt⟩)))
        (nmsks.insert (names.get ⟨i, hin⟩) (masks.get ⟨mi, hmlt⟩).sum)
        (by omega) (by omega)
        (fun j hj hjn mi2 hmi2 => hmask j (by omega) hjn mi2 hmi2)
      refine ⟨L, N, ?_⟩
      simp only [evalLoop, hglab, hgnam, hmi, hgmask]
      exact h
    | none =>
      obtain ⟨L, N, h⟩ := ih (i + 1) (losses.insert (names.get ⟨i, hin⟩)
          (f.plain pred (labels.get ⟨i, hil⟩)))
        (nmsks.insert (names.get ⟨i, hin⟩)
          (((labels.get ⟨i, hil⟩).size : ℤ)))
        (by omega) (by omega)
        (fun j hj hjn mi2 hmi2 => hmask j (by omega) hjn mi2 hmi2)
      refine ⟨L, N, ?_⟩
      simp only [evalLoop, hglab, hgnam, hmi]
      exact h

theorem evalLoop_no_assert (labels masks : List Arr) (names : List String)
    (f : LossFn) (spec : SampleSpec) :
    ∀ (rest : List Arr) (i : ℕ) (losses nmsks : Dict ℤ),
      evalLoop labels masks names f spec i rest losses nmsks ≠
        .error .assertionError := by
  intro rest
  induction rest with
  | nil =>
    intro i losses nmsks h
    simp [evalLoop] at h
  | cons pred rest2 ih =>
    intro i losses nmsks h
    cases hl : labels[i]? with
    | none => simp [evalLoop, hl] at h
    | some label =>
      cases hn : names[i]? with
      | none => simp [evalLoop, hl, hn] at h
      | some name =>
        cases hmi : spec.get_mask_index name with
        | some mi =>
          cases hm2 : masks[mi]? with
          | none => simp [evalLoop, hl, hn, hmi, hm2] at h
          | some mask =>
            simp only [evalLoop, hl, hn, hmi, hm2] at h
            exact ih (i + 1) _ _ h
        | none =>
          simp only [evalLoop, hl, hn, hmi] at h
          exact ih (i + 1) _ _ h

/-- Claim C3: under the cardinality precondition (and with distinct label
names and in-range mask indices), `eval_error` returns dicts whose key sets
both equal the label-name set, holding for each label position the masked
or plain loss and the mask sum or the label element count. -/
theorem C3_eval_error_keys_values
    (preds labels masks : List Arr) (f : LossFn) (spec : SampleSpec)
    (hlen1 : preds.length = labels.length)
    (hlen2 : labels.length = spec.get_labels.length)
    (hnd : spec.get_labels.Nodup)
    (hmask : ∀ j, j < spec.get_labels.length → ∀ mi,
      spec.get_mask_index (spec.get_labels.getD j "") = some mi →
        mi < masks.length) :
    ∃ L N, eval_error preds labels masks f spec = .ok (L, N) ∧
      L.keys.toFinset = spec.get_labels.toFinset ∧
      N.keys.toFinset = spec.get_labels.toFinset ∧
      ∀ j, j < spec.get_labels.length →
        L.lookup (spec.get_labels.getD j "") =
          some (evalLossAt preds labels masks spec.get_labels f spec j) ∧
        N.lookup (spec.get_labels.getD j "") =
          some (evalCountAt labels masks spec.get_labels spec j) := by
  obtain ⟨L, N, heval, hLk, hNk, hfr, hvals⟩ :=
    evalLoop_ok preds labels masks spec.get_labels f spec hlen1 hlen2 hnd
      preds 0 [] [] (by rw [List.drop_zero])
      (fun j hj hjn mi hmi => hmask j hjn mi hmi)
  refine ⟨L, N, ?_, ?_, ?_, ?_⟩
  · simp only [eval_error]
    rw [if_neg (not_not_intro hlen2.symm), if_neg (not_not_intro hlen1)]
    exact heval
  · rw [hLk]
    simp [Dict.keys]
  · rw [hNk]
    simp [Dict.keys]
  · intro j hj
    exact hvals j (Nat.zero_le j) hj

/-- Claim C6: `eval_error` fails with an assertion error exactly when the
cardinality precondition is violated; under the precondition (and in-range
mask indices) it returns normally. -/
theorem C6_eval_error_assert_iff
    (preds labels masks : List Arr) (f : LossFn) (spec : SampleSpec) :
    (eval_error preds labels masks f spec = .error .assertionError ↔
      spec.get_labels.length ≠ labels.length ∨
        preds.length ≠ labels.length) ∧
    (spec.get_labels.length = labels.length →
      preds.length = labels.length →
      (∀ j, j < spec.get_labels.length → ∀ mi,
        spec.get_mask_index (spec.get_labels.getD j "") = some mi →
          mi < masks.length) →
      ∃ L N, eval_error preds labels masks f spec = .ok (L, N)) := by
  constructor
  · constructor
    · intro h
      by_contra hc
      push_neg at hc
      obtain ⟨h1, h2⟩ := hc
      simp only [eval_error] at h
      rw [if_neg (not_not_intro h1), if_neg (not_not_intro h2)] at h
      exact evalLoop_no_assert labels masks spec.get_labels f spec
        preds 0 [] [] h
    · intro h
      simp only [eval_error]
      by_cases hA : spec.get_labels.length ≠ labels.length
      · rw [if_pos hA]
      · rw [if_neg hA]
        have hB : preds.length ≠ labels.length := by tauto
        rw [if_pos hB]
  · intro h1 h2 hmask
    obtain ⟨L, N, h⟩ :=
      evalLoop_isOk labels masks spec.get_labels f spec preds 0 [] []
        (by omega) (by omega)
        (fun j hj hjn mi hmi => hmask j hjn mi hmi)
    refine ⟨L, N, ?_⟩
    simp only [eval_error]
    rw [if_neg (not_not_intro h1), if_neg (not_not_intro h2)]
    exact h

/-- A concrete sample spec with one masked label and one unmasked label. -/
def exSpec : SampleSpec :=
  { inputs := ["img"]
    labels := ["affinity", "cls"]
    masks := ["affinity_mask"]
    maskIdx := fun l => if l = "affinity" then some 0 else none }

/-- A concrete loss function. -/
def exF : LossFn :=
  { plain := fun p l => p.sum - l.sum
    masked := fun p l m => (p.sum - l.sum) * m.sum }

/-- Concrete predictions. -/
def exPreds : List Arr := [⟨[2], [1, 2]⟩, ⟨[2], [3, 4]⟩]

/-- Concrete labels. -/
def exLabels : List Arr := [⟨[2], [5, 6]⟩, ⟨[2], [7, 8]⟩]

/-- Concrete masks. -/
def exMasks : List Arr := [⟨[2], [1, 0]⟩]

theorem exSpec_mask_in_range :
    ∀ j, j < exSpec.get_labels.length → ∀ mi,
      exSpec.get_mask_index (exSpec.get_labels.getD j "") = some mi →
        mi < exMasks.length := by
  intro j hj mi hmi
  simp only [exSpec, SampleSpec.get_labels, List.length_cons,
    List.length_nil] at hj
  interval_cases j
  · simp [exSpec, SampleSpec.get_labels, SampleSpec.get_mask_index] at hmi
    simp [exMasks]
    omega
  · simp [exSpec, SampleSpec.get_labels, SampleSpec.get_mask_index] at hmi

/-- Witness for C3 at a concrete call with one masked and one unmasked
label. -/
theorem C3_witness :
    ∃ L N, eval_error exPreds exLabels exMasks exF exSpec = .ok (L, N) ∧
      L.keys.toFinset = exSpec.get_labels.toFinset ∧
      N.keys.toFinset = exSpec.get_labels.toFinset ∧
      ∀ j, j < exSpec.get_labels.length →
        L.lookup (exSpec.get_labels.getD j "") =
          some (evalLossAt exPreds exLabels exMasks
            exSpec.get_labels exF exSpec j) ∧
        N.lookup (exSpec.get_labels.getD j "") =
          some (evalCountAt exLabels exMasks
            exSpec.get_labels exSpec j) := by
  exact C3_eval_error_keys_values exPreds exLabels exMasks exF exSpec
    (by decide) (by decide) (by decide) exSpec_mask_in_range

/-- Witness for C6 at the same concrete call: the precondition holds, so no
assertion error, and the call returns normally. -/
theorem C6_witness :
    (eval_error exPreds exLabels exMasks exF exSpec =
        .error .assertionError ↔
      exSpec.get_labels.length ≠ exLabels.length ∨
        exPreds.length ≠ exLabels.length) ∧
    ∃ L N, eval_error exPreds exLabels exMasks exF exSpec = .ok (L, N) := by
  have h := C6_eval_error_assert_iff exPreds exLabels exMasks exF exSpec
  exact ⟨h.1, h.2 (by decide) (by decide) exSpec_mask_in_range⟩

/-- Observable events of the embedded effectful code, in program order. -/
inductive Ev where
  | monitorCreate
  | samplerGet
  | valGet
  | forwardPass
  | zeroGrad
  | backward
  | stepOpt
  | logTrain
  | logTest
  | validation (i : ℕ)
  | computeAvgs (i : ℕ) (phase : String)
  | avgsPrint (i : ℕ)
  | checkpoint (i : ℕ)
deriving DecidableEq, Repr

/-- The optimizer with the autograd tape behind it: the accumulated
gradient of the scalar objectives backpropagated so far, and the gradient
the parameters were updated with at each `optimizer.step()`. -/
structure Optim where
  grad : ℤ
  applied : List ℤ
deriving DecidableEq, Repr

/-- `optimizer.zero_grad()`: clears the accumulated gradients. -/
def Optim.zero_grad (s : Optim × List Ev) : Optim × List Ev :=
  ({ s.1 with grad := 0 }, s.2 ++ [.zeroGrad])

/-- `t.backward()`: adds the gradient of the scalar `t` (computed by the
abstract differential `gradOf`) to the accumulator. -/
def Optim.backprop (gradOf : ℤ → ℤ) (t : ℤ) (s : Optim × List Ev) :
    Optim × List Ev :=
  ({ s.1 with grad := s.1.grad + gradOf t }, s.2 ++ [.backward])

/-- `optimizer.step()`: updates the parameters using the currently
accumulated gradient. -/
def Optim.stepOpt (s : Optim × List Ev) : Optim × List Ev :=
  ({ s.1 with applied := s.1.applied ++ [s.1.grad] }, s.2 ++ [.stepOpt])

/-- `update_model(optimizer, losses)`: zero the gradients, backpropagate
`sum(losses.values())`, apply one optimizer step.  (The Python function
returns `None`; here it only transforms the optimizer state and trace.) -/
def update_model (gradOf : ℤ → ℤ) (losses : Dict ℤ) (s : Optim × List Ev) :
    Optim × List Ev :=
  Optim.stepOpt (Optim.backprop gradOf (losses.values).sum
    (Optim.zero_grad s))

/-- Claim C5: `update_model` emits exactly the ordered effects zero-grad,
backward, step; the single step it applies uses the gradient of the
unweighted sum of all loss values, with every previously accumulated
gradient (any `o.grad`) cleared first. -/
theorem C5_update_model_order (gradOf : ℤ → ℤ) (losses : Dict ℤ)
    (o : Optim) (tr : List Ev) :
    (update_model gradOf losses (o, tr)).2 =
        tr ++ [.zeroGrad, .backward, .stepOpt] ∧
      (update_model gradOf losses (o, tr)).1.applied =
        o.applied ++ [gradOf ((losses.values).sum)] ∧
      (update_model gradOf losses (o, tr)).1.grad =
        gradOf ((losses.values).sum) := by
  refine ⟨?_, ?_, ?_⟩ <;>
    simp [update_model, Optim.zero_grad, Optim.backprop, Optim.stepOpt]

/-- A monitor key: (phase, metric name). -/
def MKey := String × String

instance : DecidableEq MKey := by
  unfold MKey
  infer_instance

/-- Generic association update: replace in place or append. -/
def aset {κ α : Type} [DecidableEq κ] :
    List (κ × α) → κ → α → List (κ × α)
  | [], k, v => [(k, v)]
  | p :: t, k, v =>
    if p.1 = k then (k, v) :: t else p :: aset t k v

/-- Generic association lookup. -/
def alookup {κ α : Type} [DecidableEq κ] :
    List (κ × α) → κ → Option α
  | [], _ => none
  | p :: t, k => if p.1 = k then some p.2 else alookup t k

theorem alookup_aset_self {κ α : Type} [DecidableEq κ]
    (d : List (κ × α)) (k : κ) (v : α) :
    alookup (aset d k v) k = some v := by
  induction d with
  | nil => simp [aset, alookup]
  | cons p t ih =>
    by_cases hp : p.1 = k
    · simp [aset, alookup, hp]
    · simp [aset, alookup, hp, ih]

theorem alookup_aset_ne {κ α : Type} [DecidableEq κ]
    (d : List (κ × α)) (k k2 : κ) (v : α) (hne : k ≠ k2) :
    alookup (aset d k v) k2 = alookup d k2 := by
  induction d with
  | nil => simp [aset, alookup, hne]
  | cons p t ih =>
    by_cases hp : p.1 = k
    · simp only [aset, hp, if_true, alookup]
      simp [hne]
    · simp only [aset, hp, if_false, alookup]
      by_cases hq : p.1 = k2
      · simp [hq]
      · simp [hq, ih]

theorem alookup_foldl_aset_frame {κ α β : Type} [DecidableEq κ]
    (key : β → κ) (f : List (κ × α) → β → α) :
    ∀ (l : List β) (d : List (κ × α)) (k2 : κ),
      (∀ b ∈ l, key b ≠ k2) →
      alookup (l.foldl (fun a b => aset a (key b) (f a b)) d) k2 =
        alookup d k2 := by
  intro l
  induction l with
  | nil =>
    intro d k2 _
    rfl
  | cons b t ih =>
    intro d k2 hne
    simp only [List.foldl_cons]
    rw [ih _ k2 (fun b2 hb2 => hne b2 (List.mem_cons_of_mem b hb2))]
    exact alookup_aset_ne d (key b) k2 (f d b)
      (hne b (List.mem_cons_self b t))

/-- Modelled from the spec: `train_utils.LearningMonitor`, absent from
`src/`.  Per §4.5 it keeps, per (phase, metric), a running numerator and
denominator, and per (phase, metric) an append-only history of
(iteration, average) pairs produced at each flush. -/
structure LearningMonitor where
  nums : List (MKey × ℤ)
  denoms : List (MKey × ℤ)
  history : List (MKey × List (ℕ × ℤ))
deriving DecidableEq

/-- A fresh monitor, as created at the start of `train`. -/
def LearningMonitor.empty : LearningMonitor :=
  { nums := [], denoms := [], history := [] }

/-- Additive contribution of a keyed set of values into one accumulator
side (creates the accumulator on first use). -/
def addContribs (phase : String) (vals : Dict ℤ)
    (acc : List (MKey × ℤ)) : List (MKey × ℤ) :=
  vals.foldl
    (fun a b => aset a ((phase, b.1) : MKey)
      ((alookup a ((phase, b.1) : MKey)).getD 0 + b.2)) acc

/-- Modelled from the spec: `monitor.add_to_num(vals, phase)`. -/
def LearningMonitor.add_to_num (m : LearningMonitor) (vals : Dict ℤ)
    (phase : String) : LearningMonitor :=
  { m with nums := addContribs phase vals m.nums }

/-- Modelled from the spec: `monitor.add_to_denom(vals, phase)`. -/
def LearningMonitor.add_to_denom (m : LearningMonitor) (vals : Dict ℤ)
    (phase : String) : LearningMonitor :=
  { m with denoms := addContribs phase vals m.denoms }

/-- Modelled from the spec: `monitor.compute_avgs(iteration, phase)`: for
every metric of `phase` with a non-zero denominator, append
`(iteration, numerator / denominator)` to its history and reset both
accumulators to zero; zero-denominator metrics are skipped.  (Scalars are
embedded as integers, so the recorded average uses integer division; no
property proved here depends on the recorded average values.) -/
def LearningMonitor.compute_avgs (m : LearningMonitor) (iter : ℕ)
    (phase : String) : LearningMonitor :=
  let tgt : List MKey :=
    (m.denoms.filter (fun p => p.1.1 = phase ∧ p.2 ≠ 0)).map Prod.fst
  { nums := tgt.foldl (fun a b => aset a (id b) ((fun _ _ => (0 : ℤ)) a b))
      m.nums
    denoms := tgt.foldl
      (fun a b => aset a (id b) ((fun _ _ => (0 : ℤ)) a b)) m.denoms
    history := tgt.foldl
      (fun a b => aset a (id b)
        ((fun (a2 : List (MKey × List (ℕ × ℤ))) (b2 : MKey) =>
          (alookup a2 b2).getD [] ++
            [(iter, (alookup m.nums b2).getD 0 /
              (alookup m.denoms b2).getD 0)]) a b)) m.history }

/-- Modelled from the spec: `monitor.get_last_value(metric, phase)`: the
value of the most recently appended history entry. -/
def LearningMonitor.get_last_value (m : LearningMonitor)
    (metric phase : String) : Option ℤ :=
  (((alookup m.history ((phase, metric) : MKey)).getD []).getLast?).map
    Prod.snd

theorem addContribs_frame (phase : String) (vals : Dict ℤ)
    (acc : List (MKey × ℤ)) (k2 : MKey) (h : k2.1 ≠ phase) :
    alookup (addContribs phase vals acc) k2 = alookup acc k2 := by
  unfold addContribs
  exact alookup_foldl_aset_frame
    (fun b => ((phase, b.1) : MKey))
    (fun a b => (alookup a ((phase, b.1) : MKey)).getD 0 + b.2)
    vals acc k2
    (fun b hb heq => h (by rw [← heq]))

theorem mem_avgs_tgt (denoms : List (MKey × ℤ)) (phase : String) :
    ∀ b ∈ ((denoms.filter
        (fun p => p.1.1 = phase ∧ p.2 ≠ 0)).map Prod.fst),
      b.1 = phase := by
  intro b hb
  simp only [List.mem_map] at hb
  obtain ⟨p, hp, hpb⟩ := hb
  rw [List.mem_filter] at hp
  have h2 := of_decide_eq_true hp.2
  rw [← hpb]
  exact h2.1

theorem compute_avgs_frame (m : LearningMonitor) (iter : ℕ)
    (phase : String) (k2 : MKey) (h : k2.1 ≠ phase) :
    alookup (m.compute_avgs iter phase).nums k2 = alookup m.nums k2 ∧
    alookup (m.compute_avgs iter phase).denoms k2 = alookup m.denoms k2 ∧
    alookup (m.compute_avgs iter phase).history k2 =
      alookup m.history k2 := by
  have hne : ∀ b ∈ ((m.denoms.filter
      (fun p => p.1.1 = phase ∧ p.2 ≠ 0)).map Prod.fst), id b ≠ k2 := by
    intro b hb heq
    apply h
    rw [← heq]
    exact mem_avgs_tgt m.denoms phase b hb
  refine ⟨?_, ?_, ?_⟩ <;>
    simp only [LearningMonitor.compute_avgs] <;>
    exact alookup_foldl_aset_frame _ _ _ _ _ hne

/-- Looks up every named field of the sample, like the comprehensions in
`make_variables`; a missing field is a key error. -/
def getAll (s : Sample) : List String → Except PyErr (List Arr)
  | [] => .ok []
  | k :: t =>
    match s.get k with
    | some a =>
      match getAll s t with
      | .ok l => .ok (a :: l)
      | .error e => .error e
    | none => .error .keyError

/-- `make_variables(sample, sample_spec, phase)`: splits the sample's
fields into input, label and mask variables following the spec's name
lists.  (The volatile/requires-grad flags have no observable effect in the
embedding; an unknown phase leaves `input_vars` unbound, a name error.) -/
def make_variables (sample : Sample) (sample_spec : SampleSpec)
    (phase : String) :
    Except PyErr (List Arr × List Arr × List Arr) :=
  if phase = "train" ∨ phase = "test" then
    match getAll sample sample_spec.get_inputs,
        getAll sample sample_spec.get_labels,
        getAll sample sample_spec.get_masks with
    | .ok iv, .ok lv, .ok mv => .ok (iv, lv, mv)
    | .error e, _, _ => .error e
    | .ok _, .error e, _ => .error e
    | .ok _, .ok _, .error e => .error e
  else .error .nameError

/-- `log_errors(monitor, losses, nmsks, phase)`: asserts matching key
sets, then adds the loss values to the numerators and the counts to the
denominators of `phase`. -/
def log_errors (monitor : LearningMonitor) (losses nmsks : Dict ℤ)
    (phase : String) : Except PyErr LearningMonitor :=
  if losses.keys.toFinset = nmsks.keys.toFinset then
    .ok ((monitor.add_to_num losses phase).add_to_denom nmsks phase)
  else .error .assertionError

/-- `log_elapsed_time(monitor, elapsed_time, phase)`: one `iter_time`
contribution with unit denominator. -/
def log_elapsed_time (monitor : LearningMonitor) (elapsed : ℤ)
    (phase : String) : LearningMonitor :=
  (monitor.add_to_num [("iter_time", elapsed)] phase).add_to_denom
    [("iter_time", 1)] phase

theorem log_step_frame (monitor m1 : LearningMonitor)
    (losses nmsks : Dict ℤ) (e : ℤ) (phase : String)
    (h : log_errors monitor losses nmsks phase = .ok m1) (k : MKey)
    (hk : k.1 ≠ phase) :
    alookup (log_elapsed_time m1 e phase).nums k =
        alookup monitor.nums k ∧
      alookup (log_elapsed_time m1 e phase).denoms k =
        alookup monitor.denoms k ∧
      alookup (log_elapsed_time m1 e phase).history k =
        alookup monitor.history k := by
  unfold log_errors at h
  by_cases hc : losses.keys.toFinset = nmsks.keys.toFinset
  · rw [if_pos hc] at h
    simp only [Except.ok.injEq] at h
    rw [← h]
    refine ⟨?_, ?_, ?_⟩ <;>
      simp only [log_elapsed_time, LearningMonitor.add_to_num,
        LearningMonitor.add_to_denom] <;>
      rw [addContribs_frame _ _ _ _ hk, addContribs_frame _ _ _ _ hk]
  · rw [if_neg hc] at h
    exact absurd h (by simp)

/-- The `for i in range(num_iters)` loop of `run_validation`: fetch a
mask-nonempty sample, forward pass, evaluate, log into the "test" phase;
carries the last value bound to the Python local `losses` (none while the
loop has not yet run). -/
def valLoop (model : List Arr → List Arr) (stream : ℕ → Sample)
    (loss_fn : LossFn) (sample_spec : SampleSpec) (etime : ℕ → ℤ)
    (fuel : ℕ) :
    ℕ → ℕ → ℕ → LearningMonitor → List Ev → Option (Dict ℤ) →
      List Ev × Except PyErr (LearningMonitor × ℕ × Option (Dict ℤ))
  | 0, _, cursor, monitor, tr, lastL => (tr, .ok (monitor, cursor, lastL))
  | n + 1, i, cursor, monitor, tr, lastL =>
    match fetch_nonempty_sample stream sample_spec.get_masks cursor fuel with
    | none =>
      (tr ++ List.replicate (fuel + 1) Ev.valGet, .error .diverged)
    | some (sample, cursor2) =>
      let tr1 := tr ++ List.replicate (cursor2 - cursor) Ev.valGet
      match make_variables sample sample_spec "test" with
      | .error e => (tr1, .error e)
      | .ok (iv, lv, mv) =>
        let preds := model iv
        let tr2 := tr1 ++ [Ev.forwardPass]
        match eval_error preds lv mv loss_fn sample_spec with
        | .error e => (tr2, .error e)
        | .ok (losses, nmsks) =>
          match log_errors monitor losses nmsks "test" with
          | .error e => (tr2, .error e)
          | .ok m1 =>
            valLoop model stream loss_fn sample_spec etime fuel n (i + 1)
              cursor2 (log_elapsed_time m1 (etime i) "test")
              (tr2 ++ [Ev.logTest]) (some losses)

/-- `run_validation(model, sampler, num_iters, loss_fn, sample_spec,
monitor, iter_num)`: the forward-only loop, then
`monitor.compute_avgs(iter_num, "test")`, then the report, which reads
`losses.keys()` — a name error when the loop never ran. -/
def run_validation (model : List Arr → List Arr) (stream : ℕ → Sample)
    (num_iters : ℕ) (loss_fn : LossFn) (sample_spec : SampleSpec)
    (monitor : LearningMonitor) (iter_num : ℕ) (cursor : ℕ)
    (etime : ℕ → ℤ) (fuel : ℕ) :
    List Ev × Except PyErr (LearningMonitor × ℕ) :=
  match valLoop model stream loss_fn sample_spec etime fuel num_iters 0
      cursor monitor [] none with
  | (tr, .error e) => (tr, .error e)
  | (tr, .ok (m1, cursor2, lastL)) =>
    let m2 := m1.compute_avgs iter_num "test"
    let tr2 := tr ++ [Ev.computeAvgs iter_num "test"]
    match lastL with
    | none => (tr2, .error .nameError)
    | some _ => (tr2, .ok (m2, cursor2))

/-- Claim C9: with `num_iters = 0` the reporting step reads the
never-assigned local `losses` and fails with a name error, after having
already flushed the empty "test" window; a normal return therefore implies
`num_iters ≥ 1`. -/
theorem C9_run_validation_zero_iters (model : List Arr → List Arr)
    (stream : ℕ → Sample) (loss_fn : LossFn) (sample_spec : SampleSpec)
    (monitor : LearningMonitor) (iter_num : ℕ) (cursor : ℕ)
    (etime : ℕ → ℤ) (fuel : ℕ) :
    run_validation model stream 0 loss_fn sample_spec monitor iter_num
        cursor etime fuel =
      ([Ev.computeAvgs iter_num "test"], .error .nameError) ∧
    ∀ (num_iters : ℕ) (tr : List Ev) (m2 : LearningMonitor) (c2 : ℕ),
      run_validation model stream num_iters loss_fn sample_spec monitor
          iter_num cursor etime fuel = (tr, .ok (m2, c2)) →
      1 ≤ num_iters := by
  have h0 : run_validation model stream 0 loss_fn sample_spec monitor
      iter_num cursor etime fuel =
      ([Ev.computeAvgs iter_num "test"], .error .nameError) := rfl
  refine ⟨h0, ?_⟩
  intro num_iters tr m2 c2 h
  cases num_iters with
  | zero =>
    rw [h0] at h
    simp at h
  | succ n => omega

theorem valLoop_props (model : List Arr → List Arr) (stream : ℕ → Sample)
    (loss_fn : LossFn) (sample_spec : SampleSpec) (etime : ℕ → ℤ)
    (fuel : ℕ) :
    ∀ (n i cursor : ℕ) (monitor : LearningMonitor) (tr : List Ev)
      (lastL : Option (Dict ℤ)) (tr2 : List Ev)
      (res : Except PyErr (LearningMonitor × ℕ × Option (Dict ℤ))),
      valLoop model stream loss_fn sample_spec etime fuel n i cursor
          monitor tr lastL = (tr2, res) →
      ∃ Δ, tr2 = tr ++ Δ ∧
        (∀ e ∈ Δ, e = Ev.valGet ∨ e = Ev.forwardPass ∨ e = Ev.logTest) ∧
        (∀ m2 c2 l2, res = .ok (m2, c2, l2) →
          Δ.count Ev.forwardPass = n ∧
          (∀ k : MKey, k.1 ≠ "test" →
            alookup m2.nums k = alookup monitor.nums k ∧
            alookup m2.denoms k = alookup monitor.denoms k ∧
            alookup m2.history k = alookup monitor.history k)) := by
  intro n
  induction n with
  | zero =>
    intro i cursor monitor tr lastL tr2 res h
    simp only [valLoop, Prod.mk.injEq] at h
    obtain ⟨h1, h2⟩ := h
    refine ⟨[], by simp [h1], by simp, ?_⟩
    intro m2 c2 l2 hres
    rw [← h2] at hres
    simp only [Except.ok.injEq, Prod.mk.injEq] at hres
    refine ⟨rfl, ?_⟩
    intro k _
    rw [← hres.1]
    exact ⟨rfl, rfl, rfl⟩
  | succ n ih =>
    intro i cursor monitor tr lastL tr2 res h
    simp only [valLoop] at h
    cases hf : fetch_nonempty_sample stream sample_spec.get_masks cursor
        fuel with
    | none =>
      rw [hf] at h
      simp only [Prod.mk.injEq] at h
      refine ⟨List.replicate (fuel + 1) Ev.valGet, by simp [h.1], ?_, ?_⟩
      · intro e he
        rw [List.eq_of_mem_replicate he]
        exact Or.inl rfl
      · intro m2 c2 l2 hres
        rw [← h.2] at hres
        simp at hres
    | some sc =>
      obtain ⟨sample, cursor2⟩ := sc
      rw [hf] at h
      cases hmv : make_variables sample sample_spec "test" with
      | error e =>
        simp only [hmv] at h
        simp only [Prod.mk.injEq] at h
        refine ⟨List.replicate (cursor2 - cursor) Ev.valGet,
          by simp [h.1], ?_, ?_⟩
        · intro e2 he2
          rw [List.eq_of_mem_replicate he2]
          exact Or.inl rfl
        · intro m2 c2 l2 hres
          rw [← h.2] at hres
          simp at hres
      | ok vars =>
        obtain ⟨iv, lv, mv⟩ := vars
        simp only [hmv] at h
        cases he : eval_error (model iv) lv mv loss_fn sample_spec with
        | error e =>
          simp only [he] at h
          simp only [Prod.mk.injEq] at h
          refine ⟨List.replicate (cursor2 - cursor) Ev.valGet ++
            [Ev.forwardPass], by simp [← h.1], ?_, ?_⟩
          · intro e2 he2
            rw [List.mem_append] at he2
            cases he2 with
            | inl h3 =>
              rw [List.eq_of_mem_replicate h3]
              exact Or.inl rfl
            | inr h3 =>
              simp at h3
              rw [h3]
              exact Or.inr (Or.inl rfl)
          · intro m2 c2 l2 hres
            rw [← h.2] at hres
            simp at hres
        | ok ln =>
          obtain ⟨losses, nmsks⟩ := ln
          simp only [he] at h
          cases hl : log_errors monitor losses nmsks "test" with
          | error e =>
            simp only [hl] at h
            simp only [Prod.mk.injEq] at h
            refine ⟨List.replicate (cursor2 - cursor) Ev.valGet ++
              [Ev.forwardPass], by simp [← h.1], ?_, ?_⟩
            · intro e2 he2
              rw [List.mem_append] at he2
              cases he2 with
              | inl h3 =>
                rw [List.eq_of_mem_replicate h3]
                exact Or.inl rfl
              | inr h3 =>
                simp at h3
                rw [h3]
                exact Or.inr (Or.inl rfl)
            · intro m2 c2 l2 hres
              rw [← h.2] at hres
              simp at hres
          | ok m1 =>
            simp only [hl] at h
            obtain ⟨Δr, hΔ1, hΔ2, hΔ3⟩ :=
              ih (i + 1) cursor2 (log_elapsed_time m1 (etime i) "test")
                (tr ++ List.replicate (cursor2 - cursor) Ev.valGet ++
                  [Ev.forwardPass] ++ [Ev.logTest]) (some losses) tr2 res
                h
            refine ⟨List.replicate (cursor2 - cursor) Ev.valGet ++
              [Ev.forwardPass] ++ [Ev.logTest] ++ Δr, ?_, ?_, ?_⟩
            · rw [hΔ1]
              simp
            · intro e2 he2
              simp only [List.mem_append] at he2
              rcases he2 with ((h3 | h3) | h3) | h3
              · rw [List.eq_of_mem_replicate h3]
                exact Or.inl rfl
              · simp at h3
                rw [h3]
                exact Or.inr (Or.inl rfl)
              · simp at h3
                rw [h3]
                exact Or.inr (Or.inr rfl)
              · exact hΔ2 e2 h3
            · intro m2 c2 l2 hres
              obtain ⟨hcount, hframe⟩ := hΔ3 m2 c2 l2 hres
              constructor
              · simp [List.count_append, hcount]
                rw [List.count_replicate]
                simp
              · intro k hk
                obtain ⟨f1, f2, f3⟩ := hframe k hk
                obtain ⟨g1, g2, g3⟩ :=
                  log_step_frame monitor m1 losses nmsks (etime i) "test"
                    hl k hk
                exact ⟨f1.trans g1, f2.trans g2, f3.trans g3⟩

/-- Recognizes a flush event of either phase. -/
def isComputeAvgsEv : Ev → Bool
  | .computeAvgs _ _ => true
  | _ => false

/-- Claim C8: a normally returning `run_validation` performed exactly
`num_iters` forward passes, no gradient clearing, backpropagation or
optimizer step, exactly one flush — of the "test" phase at `iter_num` —
and left every accumulator and history entry of any other phase (in
particular "train") unchanged. -/
theorem C8_run_validation_frame (model : List Arr → List Arr)
    (stream : ℕ → Sample) (num_iters : ℕ) (loss_fn : LossFn)
    (sample_spec : SampleSpec) (monitor : LearningMonitor)
    (iter_num cursor : ℕ) (etime : ℕ → ℤ) (fuel : ℕ) (tr : List Ev)
    (m2 : LearningMonitor) (c2 : ℕ)
    (h : run_validation model stream num_iters loss_fn sample_spec
      monitor iter_num cursor etime fuel = (tr, .ok (m2, c2))) :
    tr.count Ev.forwardPass = num_iters ∧
      tr.count Ev.zeroGrad = 0 ∧
      tr.count Ev.backward = 0 ∧
      tr.count Ev.stepOpt = 0 ∧
      tr.count Ev.logTrain = 0 ∧
      tr.filter isComputeAvgsEv = [Ev.computeAvgs iter_num "test"] ∧
      ∀ k : MKey, k.1 ≠ "test" →
        alookup m2.nums k = alookup monitor.nums k ∧
        alookup m2.denoms k = alookup monitor.denoms k ∧
        alookup m2.history k = alookup monitor.history k := by
  unfold run_validation at h
  cases hv : valLoop model stream loss_fn sample_spec etime fuel
      num_iters 0 cursor monitor [] none with
  | mk trv res =>
    rw [hv] at h
    cases res with
    | error e => simp at h
    | ok r =>
      obtain ⟨m1, cursor2, lastL⟩ := r
      cases lastL with
      | none => simp at h
      | some Ls =>
        simp only [Prod.mk.injEq, Except.ok.injEq] at h
        obtain ⟨htr, hm2, hc2⟩ := h
        obtain ⟨Δ, hΔ1, hΔ2, hΔ3⟩ :=
          valLoop_props model stream loss_fn sample_spec etime fuel
            num_iters 0 cursor monitor [] none trv (.ok (m1, cursor2,
              some Ls)) hv
        simp only [List.nil_append] at hΔ1
        obtain ⟨hcount, hframe⟩ := hΔ3 m1 cursor2 (some Ls) rfl
        have hnoGrad : ∀ e2 : Ev, e2 ≠ Ev.valGet → e2 ≠ Ev.forwardPass →
            e2 ≠ Ev.logTest → e2 ∉ Δ := by
          intro e2 h1 h2 h3 hmem
          rcases hΔ2 e2 hmem with h4 | h4 | h4
          · exact h1 h4
          · exact h2 h4
          · exact h3 h4
        rw [← htr, hΔ1]
        refine ⟨?_, ?_, ?_, ?_, ?_, ?_, ?_⟩
        · simp [List.count_append, hcount, List.count_singleton]
        · simp [List.count_append, List.count_singleton]
          exact List.count_eq_zero.mpr (hnoGrad Ev.zeroGrad
            (by simp) (by simp) (by simp))
        · simp [List.count_append, List.count_singleton]
          exact List.count_eq_zero.mpr (hnoGrad Ev.backward
            (by simp) (by simp) (by simp))
        · simp [List.count_append, List.count_singleton]
          exact List.count_eq_zero.mpr (hnoGrad Ev.stepOpt
            (by simp) (by simp) (by simp))
        · simp [List.count_append, List.count_singleton]
          exact List.count_eq_zero.mpr (hnoGrad Ev.logTrain
            (by simp) (by simp) (by simp))
        · rw [List.filter_append]
          have hnil : Δ.filter isComputeAvgsEv = [] := by
            rw [List.filter_eq_nil]
            intro e2 hmem
            rcases hΔ2 e2 hmem with h4 | h4 | h4 <;>
              rw [h4] <;> simp [isComputeAvgsEv]
          rw [hnil]
          simp [isComputeAvgsEv]
        · intro k hk
          obtain ⟨f1, f2, f3⟩ := hframe k hk
          obtain ⟨g1, g2, g3⟩ :=
            compute_avgs_frame m1 iter_num "test" k hk
          rw [← hm2]
          exact ⟨g1.trans f1, g2.trans f2, g3.trans f3⟩

/-- Decidable equality for `Except` results. -/
instance {ε α : Type} [DecidableEq ε] [DecidableEq α] :
    DecidableEq (Except ε α) := fun a b =>
  match a, b with
  | .error e1, .error e2 =>
    if h : e1 = e2 then isTrue (by rw [h])
    else isFalse (fun hh => h (Except.error.inj hh))
  | .error e1, .ok a2 => isFalse (fun hh => Except.noConfusion hh)
  | .ok a1, .ok a2 =>
    if h : a1 = a2 then isTrue (by rw [h])
    else isFalse (fun hh => h (Except.ok.inj hh))
  | .ok a1, .error e2 => isFalse (fun hh => Except.noConfusion hh)

/-- A sample whose mask is everywhere non-zero. -/
def goodSample : Sample :=
  [("img", ⟨[1], [1]⟩), ("affinity", ⟨[2], [1, 2]⟩),
   ("affinity_mask", ⟨[2], [1, 1]⟩)]

/-- A sampler that always yields `goodSample`. -/
def goodStream : ℕ → Sample := fun _ => goodSample

/-- A concrete model producing one prediction. -/
def exModel : List Arr → List Arr := fun _ => [⟨[1, 2], [1, 1]⟩]

/-- The sample spec inferred from `goodSample`'s field names. -/
def exSpec2 : SampleSpec := mkSampleSpec goodSample.keys

/-- A constant iteration-time function. -/
def oneQ : ℕ → ℤ := fun _ => 1

/-- The monitor state after one concrete validation pass and its flush. -/
def c8Mon : LearningMonitor :=
  { nums := [(("test", "affinity"), 0), (("test", "iter_time"), 0)]
    denoms := [(("test", "affinity"), 0), (("test", "iter_time"), 0)]
    history := [(("test", "affinity"), [(7, -1)]),
      (("test", "iter_time"), [(7, 1)])] }

/-- Witness for C8: one concrete validation pass. -/
theorem C8_witness :
    ([Ev.valGet, Ev.forwardPass, Ev.logTest,
        Ev.computeAvgs 7 "test"] : List Ev).count Ev.forwardPass = 1 ∧
      ([Ev.valGet, Ev.forwardPass, Ev.logTest,
        Ev.computeAvgs 7 "test"] : List Ev).count Ev.zeroGrad = 0 ∧
      ([Ev.valGet, Ev.forwardPass, Ev.logTest,
        Ev.computeAvgs 7 "test"] : List Ev).count Ev.backward = 0 ∧
      ([Ev.valGet, Ev.forwardPass, Ev.logTest,
        Ev.computeAvgs 7 "test"] : List Ev).count Ev.stepOpt = 0 ∧
      ([Ev.valGet, Ev.forwardPass, Ev.logTest,
        Ev.computeAvgs 7 "test"] : List Ev).count Ev.logTrain = 0 ∧
      ([Ev.valGet, Ev.forwardPass, Ev.logTest,
          Ev.computeAvgs 7 "test"] : List Ev).filter isComputeAvgsEv =
        [Ev.computeAvgs 7 "test"] ∧
      ∀ k : MKey, k.1 ≠ "test" →
        alookup c8Mon.nums k = alookup LearningMonitor.empty.nums k ∧
        alookup c8Mon.denoms k = alookup LearningMonitor.empty.denoms k ∧
        alookup c8Mon.history k =
          alookup LearningMonitor.empty.history k := by
  exact C8_run_validation_frame exModel goodStream 1 exF exSpec2
    LearningMonitor.empty 7 0 oneQ 1
    [Ev.valGet, Ev.forwardPass, Ev.logTest, Ev.computeAvgs 7 "test"]
    c8Mon 1 (by decide)

/-- Witness for C9: the zero-iteration name error at a concrete call, and
the one-iteration run showing a normal return implies at least one pass. -/
theorem C9_witness :
    run_validation exModel goodStream 0 exF exSpec2
        LearningMonitor.empty 7 0 oneQ 1 =
      ([Ev.computeAvgs 7 "test"], .error .nameError) ∧ 1 ≤ 1 := by
  have h := C9_run_validation_zero_iters exModel goodStream exF exSpec2
    LearningMonitor.empty 7 0 oneQ 1
  exact ⟨h.1, h.2 1
    [Ev.valGet, Ev.forwardPass, Ev.logTest, Ev.computeAvgs 7 "test"]
    c8Mon 1 (by decide)⟩

/-- The `required_params` list of `train.py`. -/
def required_params : List String :=
  ["max_iter", "test_intv", "test_iter", "avgs_intv", "chkpt_intv",
   "expt_dir"]

/-- `params_defined(params)`: every required option is among the defined
keys.  (Option values are embedded as naturals; only `expt_dir`'s value,
a path, is not numeric in the source, and no modelled behaviour reads
it.) -/
def params_defined (params : Dict ℕ) : Bool :=
  required_params.all (fun p => params.keys.contains p)

/-- `params[k]` for a required option, defaulting to 0; `train` only reads
options after `params_defined` has passed. -/
def pget (params : Dict ℕ) (k : String) : ℕ :=
  (params.lookup k).getD 0

/-- The externally supplied pieces `train` interacts with: the model, the
loss function, its abstract differential, the training and optional
validation samplers (as streams), the wall-clock (as per-iteration elapsed
times), the fetch fuel and the initial optimizer state. -/
structure TrainEnv where
  model : List Arr → List Arr
  loss_fn : LossFn
  gradOf : ℤ → ℤ
  stream : ℕ → Sample
  valStream : Option (ℕ → Sample)
  etime : ℕ → ℤ
  fuel : ℕ
  optim0 : Optim

/-- The mutable state of a training run: the event trace, the monitor, the
optimizer, the two sampler cursors, and the pending Python exception (an
uncaught exception aborts the remaining iterations). -/
structure World where
  trace : List Ev
  monitor : LearningMonitor
  optim : Optim
  cursor : ℕ
  vcursor : ℕ
  err : Option PyErr
deriving DecidableEq

/-- One iteration of the `for i in range(last_iter, max_iter)` loop of
`train`: fetch, split, forward, evaluate, update, log, then the three
cadence guards (validation; averages flush and print; checkpoint). -/
def trainBody (env : TrainEnv) (params : Dict ℕ) (last_iter : ℕ)
    (sample_spec : SampleSpec) (mask_names : List String)
    (w : World) (i : ℕ) : World :=
  match w.err with
  | some _ => w
  | none =>
    match fetch_nonempty_sample env.stream mask_names w.cursor env.fuel with
    | none =>
      { w with
        err := some PyErr.diverged
        trace := w.trace ++ List.replicate (env.fuel + 1) Ev.samplerGet }
    | some (sample, cursor2) =>
      let w1 := { w with
        trace := w.trace ++
          List.replicate (cursor2 - w.cursor) Ev.samplerGet
        cursor := cursor2 }
      match make_variables sample sample_spec "train" with
      | .error e => { w1 with err := some e }
      | .ok vars =>
        let preds := env.model vars.1
        let w2 := { w1 with trace := w1.trace ++ [Ev.forwardPass] }
        match eval_error preds vars.2.1 vars.2.2 env.loss_fn
            sample_spec with
        | .error e => { w2 with err := some e }
        | .ok ln =>
          let upd := update_model env.gradOf ln.1 (w2.optim, [])
          let w3 := { w2 with
            optim := upd.1
            trace := w2.trace ++ upd.2 }
          match log_errors w3.monitor ln.1 ln.2 "train" with
          | .error e => { w3 with err := some e }
          | .ok m1 =>
            let w4 := { w3 with
              monitor := log_elapsed_time m1 (env.etime i) "train"
              trace := w3.trace ++ [Ev.logTrain] }
            let tail := fun (w5 : World) =>
              let w6 :=
                if i % pget params "avgs_intv" = 0 ∧ i ≠ last_iter then
                  { w5 with
                    monitor := w5.monitor.compute_avgs i "train"
                    trace := w5.trace ++
                      [Ev.computeAvgs i "train", Ev.avgsPrint i] }
                else w5
              if i % pget params "chkpt_intv" = 0 ∧ i ≠ last_iter then
                { w6 with trace := w6.trace ++ [Ev.checkpoint i] }
              else w6
            match env.valStream with
            | some vs =>
              if i % pget params "test_intv" = 0 then
                match run_validation env.model vs
                    (pget params "test_iter") env.loss_fn sample_spec
                    w4.monitor i w4.vcursor env.etime env.fuel with
                | (trv, .error e) =>
                  { w4 with
                    trace := w4.trace ++ [Ev.validation i] ++ trv
                    err := some e }
                | (trv, .ok mv) =>
                  tail { w4 with
                    trace := w4.trace ++ [Ev.validation i] ++ trv
                    monitor := mv.1
                    vcursor := mv.2 }
              else tail w4
            | none => tail w4

/-- `train(model, loss_fn, optimizer, sampler, val_sampler, last_iter,
**params)`: the parameter check, the monitor creation, the one
spec-deriving sample, then the training loop. -/
def train (env : TrainEnv) (last_iter : ℕ) (params : Dict ℕ) : World :=
  if params_defined params then
    let sample_spec := mkSampleSpec (env.stream 0).keys
    let mask_names := sample_spec.get_masks
    let w0 : World :=
      { trace := [Ev.monitorCreate, Ev.samplerGet]
        monitor := LearningMonitor.empty
        optim := env.optim0
        cursor := 1
        vcursor := 0
        err := none }
    (List.range' last_iter (pget params "max_iter" - last_iter)).foldl
      (trainBody env params last_iter sample_spec mask_names) w0
  else
    { trace := []
      monitor := LearningMonitor.empty
      optim := env.optim0
      cursor := 0
      vcursor := 0
      err := some PyErr.assertionError }

/-- The C2 environment: a constant all-good sampler, no validation
sampler. -/
def c2Env : TrainEnv :=
  { model := exModel
    loss_fn := exF
    gradOf := id
    stream := goodStream
    valStream := none
    etime := fun _ => 1
    fuel := 1
    optim0 := ⟨0, []⟩ }

/-- The C2 options: `max_iter=10, test_intv=100, test_iter=3, avgs_intv=5,
chkpt_intv=5`. -/
def c2Params : Dict ℕ :=
  [("max_iter", 10), ("test_intv", 100), ("test_iter", 3),
   ("avgs_intv", 5), ("chkpt_intv", 5), ("expt_dir", 0)]

/-- Recognizes a "train"-phase averages flush or its print. -/
def isAvgsEv : Ev → Bool
  | .computeAvgs _ "train" => true
  | .avgsPrint _ => true
  | _ => false

/-- Recognizes a checkpoint save. -/
def isCheckpointEv : Ev → Bool
  | .checkpoint _ => true
  | _ => false

/-- Recognizes a validation run. -/
def isValidationEv : Ev → Bool
  | .validation _ => true
  | _ => false

/-- Claim C2: with `max_iter=10, avgs_intv=5, chkpt_intv=5, test_intv=100,
last_iter=0` and no validation sampler, the run performs exactly one
averages flush-and-print and exactly one checkpoint, both at iteration 5,
and no validation; iteration 0 is suppressed by the `i != last_iter`
guards and iteration 10 is outside the exclusive loop bound. -/
theorem C2_train_cadence_concrete :
    ((train c2Env 0 c2Params).trace.filter isAvgsEv =
      [Ev.computeAvgs 5 "train", Ev.avgsPrint 5]) ∧
    ((train c2Env 0 c2Params).trace.filter isCheckpointEv =
      [Ev.checkpoint 5]) ∧
    ((train c2Env 0 c2Params).trace.filter isValidationEv = []) ∧
    (train c2Env 0 c2Params).err = none := by decide

/-- Claim C7: `params_defined` passes exactly when all six required
options are present (extra keys are irrelevant), and a failed check
aborts `train` before any effect: no monitor creation, no sampler draw,
an empty event trace. -/
theorem C7_train_params (env : TrainEnv) (last_iter : ℕ)
    (params : Dict ℕ) :
    (params_defined params = true ↔
      ∀ p ∈ required_params, p ∈ params.keys) ∧
    (params_defined params = false →
      train env last_iter params =
        { trace := []
          monitor := LearningMonitor.empty
          optim := env.optim0
          cursor := 0
          vcursor := 0
          err := some PyErr.assertionError }) := by
  constructor
  · unfold params_defined
    rw [List.all_eq_true]
    constructor
    · intro h p hp
      have h2 := h p hp
      simpa using h2
    · intro h p hp
      simpa using h p hp
  · intro h
    unfold train
    rw [if_neg]
    simp [h]

/-- Witness for C7: a parameter dict missing five of the six required
keys fails the check, and `train` returns the untouched aborted state. -/
theorem C7_witness :
    (params_defined [("max_iter", 10)] = true ↔
      ∀ p ∈ required_params, p ∈ Dict.keys [("max_iter", 10)]) ∧
    train c2Env 0 [("max_iter", 10)] =
      { trace := []
        monitor := LearningMonitor.empty
        optim := c2Env.optim0
        cursor := 0
        vcursor := 0
        err := some PyErr.assertionError } := by
  have h := C7_train_params c2Env 0 [("max_iter", 10)]
  exact ⟨h.1, h.2 (by decide)⟩

theorem update_model_events (g : ℤ → ℤ) (losses : Dict ℤ) (o : Optim)
    (tr : List Ev) :
    (update_model g losses (o, tr)).2 =
      tr ++ [Ev.zeroGrad, Ev.backward, Ev.stepOpt] := by
  simp [update_model, Optim.zero_grad, Optim.backprop, Optim.stepOpt]

theorem run_validation_events (model : List Arr → List Arr)
    (stream : ℕ → Sample) (n : ℕ) (loss_fn : LossFn)
    (spec : SampleSpec) (monitor : LearningMonitor) (iter cursor : ℕ)
    (etime : ℕ → ℤ) (fuel : ℕ) (trv : List Ev)
    (res : Except PyErr (LearningMonitor × ℕ))
    (h : run_validation model stream n loss_fn spec monitor iter cursor
      etime fuel = (trv, res)) :
    ∀ e ∈ trv, e = Ev.valGet ∨ e = Ev.forwardPass ∨ e = Ev.logTest ∨
      e = Ev.computeAvgs iter "test" := by
  unfold run_validation at h
  cases hv : valLoop model stream loss_fn spec etime fuel n 0 cursor
      monitor [] none with
  | mk trL resL =>
    rw [hv] at h
    obtain ⟨Δ, hΔ1, hΔ2, _⟩ :=
      valLoop_props model stream loss_fn spec etime fuel n 0 cursor
        monitor [] none trL resL hv
    simp only [List.nil_append] at hΔ1
    cases resL with
    | error e2 =>
      simp only [Prod.mk.injEq] at h
      intro e he
      rw [← h.1, hΔ1] at he
      rcases hΔ2 e he with h3 | h3 | h3
      · exact Or.inl h3
      · exact Or.inr (Or.inl h3)
      · exact Or.inr (Or.inr (Or.inl h3))
    | ok r =>
      obtain ⟨m1, c2, lastL⟩ := r
      have htrv : trv = trL ++ [Ev.computeAvgs iter "test"] := by
        cases lastL with
        | none =>
          simp only [Prod.mk.injEq] at h
          exact h.1.symm
        | some Ls =>
          simp only [Prod.mk.injEq] at h
          exact h.1.symm
      intro e he
      rw [htrv, hΔ1, List.mem_append] at he
      cases he with
      | inl h3 =>
        rcases hΔ2 e h3 with h4 | h4 | h4
        · exact Or.inl h4
        · exact Or.inr (Or.inl h4)
        · exact Or.inr (Or.inr (Or.inl h4))
      | inr h3 =>
        simp at h3
        exact Or.inr (Or.inr (Or.inr h3))

theorem val_trace_not_mem (model : List Arr → List Arr)
    (stream : ℕ → Sample) (n : ℕ) (loss_fn : LossFn)
    (spec : SampleSpec) (monitor : LearningMonitor) (iter cursor : ℕ)
    (etime : ℕ → ℤ) (fuel : ℕ) (trv : List Ev)
    (res : Except PyErr (LearningMonitor × ℕ))
    (h : run_validation model stream n loss_fn spec monitor iter cursor
      etime fuel = (trv, res)) :
    (∀ j, Ev.validation j ∉ trv) ∧ (∀ j, Ev.avgsPrint j ∉ trv) ∧
      (∀ j, Ev.checkpoint j ∉ trv) ∧
      (∀ j, Ev.computeAvgs j "train" ∉ trv) ∧
      Ev.samplerGet ∉ trv ∧ Ev.logTrain ∉ trv := by
  have he := run_validation_events model stream n loss_fn spec monitor
    iter cursor etime fuel trv res h
  refine ⟨?_, ?_, ?_, ?_, ?_, ?_⟩
  · intro j hmem
    rcases he _ hmem with h4 | h4 | h4 | h4 <;> simp at h4
  · intro j hmem
    rcases he _ hmem with h4 | h4 | h4 | h4 <;> simp at h4
  · intro j hmem
    rcases he _ hmem with h4 | h4 | h4 | h4 <;> simp at h4
  · intro j hmem
    rcases he _ hmem with h4 | h4 | h4 | h4 <;> simp at h4
  · intro hmem
    rcases he _ hmem with h4 | h4 | h4 | h4 <;> simp at h4
  · intro hmem
    rcases he _ hmem with h4 | h4 | h4 | h4 <;> simp at h4

/-- Claim C4: in any training-loop iteration that completes without an
exception and with a validation sampler present, validation runs exactly
when `i % test_intv == 0` — including at `i == last_iter` — while the
averages flush/print and the checkpoint save never happen at
`i == last_iter`. -/
theorem C4_validation_fires_guards_suppress
    (env : TrainEnv) (params : Dict ℕ) (li : ℕ) (spec : SampleSpec)
    (mn : List String) (w : World) (i : ℕ) (vs : ℕ → Sample)
    (hv : env.valStream = some vs) (hw : w.err = none)
    (hok : (trainBody env params li spec mn w i).err = none) :
    ∃ Δ, (trainBody env params li spec mn w i).trace = w.trace ++ Δ ∧
      (Ev.validation i ∈ Δ ↔ i % pget params "test_intv" = 0) ∧
      (i = li →
        Ev.avgsPrint i ∉ Δ ∧ Ev.checkpoint i ∉ Δ ∧
        Ev.computeAvgs i "train" ∉ Δ) := by
  simp only [trainBody, hw] at hok ⊢
  cases hf : fetch_nonempty_sample env.stream mn w.cursor env.fuel with
  | none =>
    simp only [hf] at hok
    exact absurd hok (by simp)
  | some sc =>
    obtain ⟨sample, cursor2⟩ := sc
    simp only [hf] at hok ⊢
    cases hmv : make_variables sample spec "train" with
    | error e =>
      simp only [hmv] at hok
      exact absurd hok (by simp)
    | ok vars =>
      simp only [hmv] at hok ⊢
      cases he : eval_error (env.model vars.1) vars.2.1 vars.2.2
          env.loss_fn spec with
      | error e =>
        simp only [he] at hok
        exact absurd hok (by simp)
      | ok ln =>
        simp only [he] at hok ⊢
        cases hl : log_errors w.monitor ln.1 ln.2 "train" with
        | error e =>
          simp only [hl] at hok
          exact absurd hok (by simp)
        | ok m1 =>
          simp only [hl, hv] at hok ⊢
          by_cases hti : i % pget params "test_intv" = 0
          · simp only [if_pos hti] at hok ⊢
            cases hrv : run_validation env.model vs
                (pget params "test_iter") env.loss_fn spec
                (log_elapsed_time m1 (env.etime i) "train") i w.vcursor
                env.etime env.fuel with
            | mk trv resv =>
              simp only [hrv] at hok ⊢
              cases resv with
              | error e =>
                simp only at hok
                exact absurd hok (by simp)
              | ok mv =>
                simp only at hok ⊢
                obtain ⟨hnm1, hnm2, hnm3, hnm4, _⟩ :=
                  val_trace_not_mem env.model vs
                    (pget params "test_iter") env.loss_fn spec
                    (log_elapsed_time m1 (env.etime i) "train") i
                    w.vcursor env.etime env.fuel trv (.ok mv) hrv
                by_cases hcg : i % pget params "chkpt_intv" = 0 ∧ i ≠ li
                · rw [if_pos hcg]
                  by_cases hag : i % pget params "avgs_intv" = 0 ∧ i ≠ li
                  · rw [if_pos hag]
                    refine ⟨List.replicate (cursor2 - w.cursor)
                      Ev.samplerGet ++ [Ev.forwardPass] ++
                      [Ev.zeroGrad, Ev.backward, Ev.stepOpt] ++
                      [Ev.logTrain] ++ [Ev.validation i] ++ trv ++
                      [Ev.computeAvgs i "train", Ev.avgsPrint i] ++
                      [Ev.checkpoint i], ?_, ?_, ?_⟩
                    · simp [List.append_assoc, update_model_events]
                    · exact iff_of_true (by simp) hti
                    · intro heq
                      exact absurd heq hag.2
                  · rw [if_neg hag]
                    refine ⟨List.replicate (cursor2 - w.cursor)
                      Ev.samplerGet ++ [Ev.forwardPass] ++
                      [Ev.zeroGrad, Ev.backward, Ev.stepOpt] ++
                      [Ev.logTrain] ++ [Ev.validation i] ++ trv ++
                      [Ev.checkpoint i], ?_, ?_, ?_⟩
                    · simp [List.append_assoc, update_model_events]
                    · exact iff_of_true (by simp) hti
                    · intro heq
                      exact absurd heq hcg.2
                · rw [if_neg hcg]
                  by_cases hag : i % pget params "avgs_intv" = 0 ∧ i ≠ li
                  · rw [if_pos hag]
                    refine ⟨List.replicate (cursor2 - w.cursor)
                      Ev.samplerGet ++ [Ev.forwardPass] ++
                      [Ev.zeroGrad, Ev.backward, Ev.stepOpt] ++
                      [Ev.logTrain] ++ [Ev.validation i] ++ trv ++
                      [Ev.computeAvgs i "train", Ev.avgsPrint i],
                      ?_, ?_, ?_⟩
                    · simp [List.append_assoc, update_model_events]
                    · exact iff_of_true (by simp) hti
                    · intro heq
                      exact absurd heq hag.2
                  · rw [if_neg hag]
                    refine ⟨List.replicate (cursor2 - w.cursor)
                      Ev.samplerGet ++ [Ev.forwardPass] ++
                      [Ev.zeroGrad, Ev.backward, Ev.stepOpt] ++
                      [Ev.logTrain] ++ [Ev.validation i] ++ trv,
                      ?_, ?_, ?_⟩
                    · simp [List.append_assoc, update_model_events]
                    · exact iff_of_true (by simp) hti
                    · intro heq
                      refine ⟨?_, ?_, ?_⟩ <;> intro hmem <;>
                        simp only [List.mem_append, List.mem_replicate,
                          List.mem_cons, List.not_mem_nil] at hmem
                      · rcases hmem with ((h3 | h3) | h3) | h3
                        · rcases h3 with (h4 | h4) | h4 <;> simp at h4
                        · simp at h3
                        · simp at h3
                        · exact hnm2 i h3
                      · rcases hmem with ((h3 | h3) | h3) | h3
                        · rcases h3 with (h4 | h4) | h4 <;> simp at h4
                        · simp at h3
                        · simp at h3
                        · exact hnm3 i h3
                      · rcases hmem with ((h3 | h3) | h3) | h3
                        · rcases h3 with (h4 | h4) | h4 <;> simp at h4
                        · simp at h3
                        · simp at h3
                        · exact hnm4 i h3
          · simp only [if_neg hti] at hok ⊢
            by_cases hcg : i % pget params "chkpt_intv" = 0 ∧ i ≠ li
            · rw [if_pos hcg]
              by_cases hag : i % pget params "avgs_intv" = 0 ∧ i ≠ li
              · rw [if_pos hag]
                refine ⟨List.replicate (cursor2 - w.cursor)
                  Ev.samplerGet ++ [Ev.forwardPass] ++
                  [Ev.zeroGrad, Ev.backward, Ev.stepOpt] ++
                  [Ev.logTrain] ++
                  [Ev.computeAvgs i "train", Ev.avgsPrint i] ++
                  [Ev.checkpoint i], ?_, ?_, ?_⟩
                · simp [List.append_assoc, update_model_events]
                · refine iff_of_false ?_ hti
                  intro hmem
                  simp [List.mem_append, List.mem_replicate] at hmem
                · intro heq
                  exact absurd heq hag.2
              · rw [if_neg hag]
                refine ⟨List.replicate (cursor2 - w.cursor)
                  Ev.samplerGet ++ [Ev.forwardPass] ++
                  [Ev.zeroGrad, Ev.backward, Ev.stepOpt] ++
                  [Ev.logTrain] ++ [Ev.checkpoint i], ?_, ?_, ?_⟩
                · simp [List.append_assoc, update_model_events]
                · refine iff_of_false ?_ hti
                  intro hmem
                  simp [List.mem_append, List.mem_replicate] at hmem
                · intro heq
                  exact absurd heq hcg.2
            · rw [if_neg hcg]
              by_cases hag : i % pget params "avgs_intv" = 0 ∧ i ≠ li
              · rw [if_pos hag]
                refine ⟨List.replicate (cursor2 - w.cursor)
                  Ev.samplerGet ++ [Ev.forwardPass] ++
                  [Ev.zeroGrad, Ev.backward, Ev.stepOpt] ++
                  [Ev.logTrain] ++
                  [Ev.computeAvgs i "train", Ev.avgsPrint i],
                  ?_, ?_, ?_⟩
                · simp [List.append_assoc, update_model_events]
                · refine iff_of_false ?_ hti
                  intro hmem
                  simp [List.mem_append, List.mem_replicate] at hmem
                · intro heq
                  exact absurd heq hag.2
              · rw [if_neg hag]
                refine ⟨List.replicate (cursor2 - w.cursor)
                  Ev.samplerGet ++ [Ev.forwardPass] ++
                  [Ev.zeroGrad, Ev.backward, Ev.stepOpt] ++
                  [Ev.logTrain], ?_, ?_, ?_⟩
                · simp [List.append_assoc, update_model_events]
                · refine iff_of_false ?_ hti
                  intro hmem
                  simp [List.mem_append, List.mem_replicate] at hmem
                · intro heq
                  refine ⟨?_, ?_, ?_⟩ <;> intro hmem <;>
                    simp [List.mem_append, List.mem_replicate] at hmem

/-- The C4 environment: the C2 environment plus a validation sampler. -/
def c4Env : TrainEnv := { c2Env with valStream := some goodStream }

/-- Options with every cadence equal to 1. -/
def c4Params : Dict ℕ :=
  [("max_iter", 1), ("test_intv", 1), ("test_iter", 1),
   ("avgs_intv", 1), ("chkpt_intv", 1), ("expt_dir", 0)]

/-- The world state right before iteration 0. -/
def c4W : World :=
  { trace := [Ev.monitorCreate, Ev.samplerGet]
    monitor := LearningMonitor.empty
    optim := ⟨0, []⟩
    cursor := 1
    vcursor := 0
    err := none }

/-- Witness for C4 at iteration `i = last_iter = 0` with all cadences 1:
validation fires, while the averages print and the checkpoint are
suppressed. -/
theorem C4_witness :
    ∃ Δ, (trainBody c4Env c4Params 0 exSpec2 exSpec2.get_masks
        c4W 0).trace = c4W.trace ++ Δ ∧
      (Ev.validation 0 ∈ Δ ↔ 0 % pget c4Params "test_intv" = 0) ∧
      (0 = 0 →
        Ev.avgsPrint 0 ∉ Δ ∧ Ev.checkpoint 0 ∉ Δ ∧
        Ev.computeAvgs 0 "train" ∉ Δ) := by
  exact C4_validation_fires_guards_suppress c4Env c4Params 0 exSpec2
    exSpec2.get_masks c4W 0 goodStream rfl rfl (by decide)

theorem fetchIdx_ge (stream : ℕ → Sample) (masks : List String) :
    ∀ fuel k j, fetchIdx stream masks k fuel = some j → k ≤ j := by
  intro fuel
  induction fuel with
  | zero =>
    intro k j h
    unfold fetchIdx at h
    by_cases hc : masks_not_empty (stream k) masks
    · simp [hc] at h
    · simp [hc] at h
      omega
  | succ n ih =>
    intro k j h
    unfold fetchIdx at h
    by_cases hc : masks_not_empty (stream k) masks
    · simp [hc] at h
      have := ih (k + 1) j h
      omega
    · simp [hc] at h
      omega

theorem fetchIdx_congr (s t : ℕ → Sample) (masks : List String) :
    ∀ fuel k, (∀ m, k ≤ m → s m = t m) →
      fetchIdx s masks k fuel = fetchIdx t masks k fuel := by
  intro fuel
  induction fuel with
  | zero =>
    intro k h
    unfold fetchIdx
    rw [h k (le_refl k)]
  | succ n ih =>
    intro k h
    unfold fetchIdx
    rw [h k (le_refl k)]
    by_cases hc : masks_not_empty (t k) masks
    · simp only [hc, if_true]
      exact ih (k + 1) (fun m hm => h m (by omega))
    · simp [hc]

theorem fetch_congr (s t : ℕ → Sample) (masks : List String) (k fuel : ℕ)
    (h : ∀ m, k ≤ m → s m = t m) :
    fetch_nonempty_sample s masks k fuel =
      fetch_nonempty_sample t masks k fuel := by
  unfold fetch_nonempty_sample
  rw [fetchIdx_congr s t masks fuel k h]
  cases hj : fetchIdx t masks k fuel with
  | none => rfl
  | some j => simp [h j (fetchIdx_ge t masks fuel k j hj)]

theorem fetch_cursor_lt (stream : ℕ → Sample) (masks : List String)
    (k fuel : ℕ) (sample : Sample) (c2 : ℕ)
    (h : fetch_nonempty_sample stream masks k fuel = some (sample, c2)) :
    k < c2 := by
  unfold fetch_nonempty_sample at h
  cases hj : fetchIdx stream masks k fuel with
  | none =>
    rw [hj] at h
    simp at h
  | some j =>
    rw [hj] at h
    simp at h
    have := fetchIdx_ge stream masks fuel k j hj
    omega

theorem trainBody_cursor_mono (env : TrainEnv) (params : Dict ℕ)
    (li : ℕ) (spec : SampleSpec) (mn : List String) (w : World) (i : ℕ) :
    w.cursor ≤ (trainBody env params li spec mn w i).cursor := by
  unfold trainBody
  cases hw : w.err with
  | some e => exact le_refl w.cursor
  | none =>
    cases hf : fetch_nonempty_sample env.stream mn w.cursor env.fuel with
    | none => simp
    | some sc =>
      obtain ⟨sample, cursor2⟩ := sc
      have hc2 : w.cursor < cursor2 :=
        fetch_cursor_lt env.stream mn w.cursor env.fuel sample cursor2 hf
      simp only
      cases hmv : make_variables sample spec "train" with
      | error e => simp; omega
      | ok vars =>
        simp only
        cases he : eval_error (env.model vars.1) vars.2.1 vars.2.2
            env.loss_fn spec with
        | error e => simp; omega
        | ok ln =>
          simp only
          cases hl : log_errors w.monitor ln.1 ln.2 "train" with
          | error e => simp; omega
          | ok m1 =>
            simp only
            cases hvs : env.valStream with
            | none =>
              simp only
              split <;> split <;> simp <;> omega
            | some vs =>
              simp only
              split
              · split
                · simp; omega
                · split <;> split <;> simp <;> omega
              · split <;> split <;> simp <;> omega

theorem trainBody_congr (env : TrainEnv) (t : ℕ → Sample)
    (params : Dict ℕ) (li : ℕ) (spec : SampleSpec) (mn : List String)
    (w : World) (i : ℕ) (hc : 1 ≤ w.cursor)
    (h : ∀ m, 1 ≤ m → env.stream m = t m) :
    trainBody { env with stream := t } params li spec mn w i =
      trainBody env params li spec mn w i := by
  have hfe : fetch_nonempty_sample t mn w.cursor env.fuel =
      fetch_nonempty_sample env.stream mn w.cursor env.fuel :=
    (fetch_congr env.stream t mn w.cursor env.fuel
      (fun m hm => h m (le_trans hc hm))).symm
  unfold trainBody
  simp only [hfe]

theorem trainBody_count (env : TrainEnv) (params : Dict ℕ) (li : ℕ)
    (spec : SampleSpec) (mn : List String) (w : World) (i : ℕ)
    (hi : w.trace.count Ev.logTrain + 1 ≤ w.trace.count Ev.samplerGet) :
    (trainBody env params li spec mn w i).trace.count Ev.logTrain + 1 ≤
      (trainBody env params li spec mn w i).trace.count
        Ev.samplerGet := by
  unfold trainBody
  cases hw : w.err with
  | some e => exact hi
  | none =>
    cases hf : fetch_nonempty_sample env.stream mn w.cursor env.fuel with
    | none =>
      simp [List.count_append, List.count_replicate]
      omega
    | some sc =>
      obtain ⟨sample, cursor2⟩ := sc
      have hg : w.cursor < cursor2 :=
        fetch_cursor_lt env.stream mn w.cursor env.fuel sample cursor2 hf
      simp only
      cases hmv : make_variables sample spec "train" with
      | error e =>
        simp [List.count_append, List.count_replicate]
        omega
      | ok vars =>
        simp only
        cases he : eval_error (env.model vars.1) vars.2.1 vars.2.2
            env.loss_fn spec with
        | error e =>
          simp [List.count_append, List.count_replicate]
          omega
        | ok ln =>
          simp only
          cases hl : log_errors w.monitor ln.1 ln.2 "train" with
          | error e =>
            simp [List.count_append, List.count_replicate,
              update_model_events]
            omega
          | ok m1 =>
            simp only
            cases hvs : env.valStream with
            | none =>
              simp only
              split <;> split <;>
                simp [List.count_append, List.count_replicate,
                  update_model_events] <;>
                omega
            | some vs =>
              simp only
              by_cases hti : i % pget params "test_intv" = 0
              · rw [if_pos hti]
                cases hrv : run_validation env.model vs
                    (pget params "test_iter") env.loss_fn spec
                    (log_elapsed_time m1 (env.etime i) "train") i
                    w.vcursor env.etime env.fuel with
                | mk trv resv =>
                  obtain ⟨_, _, _, _, hnsg, hnlt⟩ :=
                    val_trace_not_mem env.model vs
                      (pget params "test_iter") env.loss_fn spec
                      (log_elapsed_time m1 (env.etime i) "train") i
                      w.vcursor env.etime env.fuel trv resv hrv
                  have hsg0 : trv.count Ev.samplerGet = 0 :=
                    List.count_eq_zero.mpr hnsg
                  have hlt0 : trv.count Ev.logTrain = 0 :=
                    List.count_eq_zero.mpr hnlt
                  cases resv with
                  | error e =>
                    simp [List.count_append, List.count_replicate,
                      update_model_events, hsg0, hlt0]
                    omega
                  | ok mv =>
                    simp only
                    split <;> split <;>
                      simp [List.count_append, List.count_replicate,
                        update_model_events, hsg0, hlt0] <;>
                      omega
              · rw [if_neg hti]
                split <;> split <;>
                  simp [List.count_append, List.count_replicate,
                    update_model_events] <;>
                  omega

theorem foldl_cursor_mono (env : TrainEnv) (params : Dict ℕ) (li : ℕ)
    (spec : SampleSpec) (mn : List String) :
    ∀ (l : List ℕ) (w : World),
      w.cursor ≤
        (l.foldl (trainBody env params li spec mn) w).cursor := by
  intro l
  induction l with
  | nil => intro w; exact le_refl w.cursor
  | cons a l2 ih =>
    intro w
    simp only [List.foldl_cons]
    exact le_trans (trainBody_cursor_mono env params li spec mn w a)
      (ih (trainBody env params li spec mn w a))

theorem foldl_congr (env : TrainEnv) (t : ℕ → Sample) (params : Dict ℕ)
    (li : ℕ) (spec : SampleSpec) (mn : List String)
    (h : ∀ m, 1 ≤ m → env.stream m = t m) :
    ∀ (l : List ℕ) (w : World), 1 ≤ w.cursor →
      l.foldl (trainBody { env with stream := t } params li spec mn) w =
        l.foldl (trainBody env params li spec mn) w := by
  intro l
  induction l with
  | nil => intro w _; rfl
  | cons a l2 ih =>
    intro w hc
    simp only [List.foldl_cons]
    rw [trainBody_congr env t params li spec mn w a hc h]
    exact ih (trainBody env params li spec mn w a)
      (le_trans hc (trainBody_cursor_mono env params li spec mn w a))

theorem foldl_count (env : TrainEnv) (params : Dict ℕ) (li : ℕ)
    (spec : SampleSpec) (mn : List String) :
    ∀ (l : List ℕ) (w : World),
      w.trace.count Ev.logTrain + 1 ≤ w.trace.count Ev.samplerGet →
      (l.foldl (trainBody env params li spec mn) w).trace.count
          Ev.logTrain + 1 ≤
        (l.foldl (trainBody env params li spec mn) w).trace.count
          Ev.samplerGet := by
  intro l
  induction l with
  | nil => intro w hw; exact hw
  | cons a l2 ih =>
    intro w hw
    simp only [List.foldl_cons]
    exact ih (trainBody env params li spec mn w a)
      (trainBody_count env params li spec mn w a hw)

/-- Claim C10: the first sample drawn by `train` is used only for its
field names — replacing it by any sample with the same keys (and leaving
the rest of the stream unchanged) produces an identical run, so it is
never mask-checked, forwarded, or logged — and every trained-on sample
costs at least one further sampler call, so the sampler is invoked at
least once more than the number of trained-on samples. -/
theorem C10_first_sample_only_names (env : TrainEnv) (t : ℕ → Sample)
    (li : ℕ) (params : Dict ℕ)
    (hkeys : Sample.keys (env.stream 0) = Sample.keys (t 0))
    (ht : ∀ m, 1 ≤ m → env.stream m = t m) :
    train { env with stream := t } li params = train env li params ∧
    (params_defined params = true →
      (train env li params).trace.count Ev.logTrain + 1 ≤
        (train env li params).trace.count Ev.samplerGet) := by
  constructor
  · unfold train
    by_cases hp : params_defined params
    · rw [if_pos hp, if_pos hp]
      have hks : Sample.keys (({ env with stream := t }).stream 0) =
          Sample.keys (env.stream 0) := hkeys.symm
      rw [hks]
      exact foldl_congr env t params li
        (mkSampleSpec (env.stream 0).keys)
        (mkSampleSpec (env.stream 0).keys).get_masks ht _ _
        (le_refl 1)
    · rw [if_neg hp, if_neg hp]
  · intro hp
    unfold train
    rw [if_pos hp]
    apply foldl_count
    simp [List.count_cons]

/-- A sampler equal to `goodStream` except in its first sample, which has
the same field names but different values and an all-zero mask. -/
def c10T : ℕ → Sample := fun k =>
  if k = 0 then
    [("img", ⟨[1], [9]⟩), ("affinity", ⟨[2], [7, 7]⟩),
     ("affinity_mask", ⟨[2], [0, 0]⟩)]
  else goodSample

/-- Witness for C10: swapping the discarded first sample (even for one
with an empty mask) leaves the run unchanged, and the concrete run calls
the sampler strictly more often than it trains. -/
theorem C10_witness :
    train { c2Env with stream := c10T } 0 c2Params =
      train c2Env 0 c2Params ∧
    (train c2Env 0 c2Params).trace.count Ev.logTrain + 1 ≤
      (train c2Env 0 c2Params).trace.count Ev.samplerGet := by
  have h := C10_first_sample_only_names c2Env c10T 0 c2Params (by decide)
    (fun m hm => by
      unfold c10T
      rw [if_neg]
      · rfl
      · omega)
  exact ⟨h.1, h.2 (by decide)⟩
